import Mathlib

/-!
Shallow embedding of the lead-disposition control plane
(`src/lead_disposition/`): the relational store, the contact/company
state machine (`state_machine.py`), the campaign fill engine
(`campaign_fill.py`), deconfliction (`deconfliction.py`), the TAM
tracker (`tam_tracker.py`) and the waterfall provider cascade
(`waterfall/engine.py`).

Modelling conventions:
* Timestamps are natural numbers measured in days (the code only ever
  adds day-granularity `timedelta`s to `datetime.now()`).
* SQL tables are Lean lists; history/log inserts cons the new row at the
  head (most recent first); row updates are `List.map` restricted to the
  matching primary key.
* Python `float` ratios and credits are modelled as exact rationals.
* Raising an exception is modelled with `Except`; a function that
  raises before writing returns `.error` and the caller keeps its
  previous store, mirroring the raise-before-write order of the source.
-/

namespace LeadDisposition

/-- Contact disposition states, from `core/models.py` `DispositionStatus`. -/
inductive DispositionStatus where
  | fresh
  | in_sequence
  | completed_no_response
  | replied_positive
  | replied_neutral
  | replied_negative
  | replied_hard_no
  | bounced
  | unsubscribed
  | retouch_eligible
  | stale_data
  | job_change_detected
  | won_customer
  | lost_closed
deriving DecidableEq, Repr

/-- Company lifecycle states, from `core/models.py` `CompanyStatus`. -/
inductive CompanyStatus where
  | fresh
  | active
  | cooling
  | suppressed
  | customer
deriving DecidableEq, Repr

/-- Outreach channel, from `core/models.py` `Channel`. -/
inductive Channel where
  | email
  | linkedin
  | phone
deriving DecidableEq, Repr

/-- A row of the `contacts` table (`core/models.py` `Contact`), keyed by
`(email, client_id)`.  Fields not touched by any modelled operation are
omitted. -/
structure Contact where
  email : String
  client_id : String
  company_domain : String
  last_known_title : Option String := none
  disposition_status : DispositionStatus := .fresh
  disposition_updated_at : Option Nat := none
  email_last_contacted : Option Nat := none
  linkedin_last_contacted : Option Nat := none
  phone_last_contacted : Option Nat := none
  email_cooldown_until : Option Nat := none
  linkedin_cooldown_until : Option Nat := none
  phone_cooldown_until : Option Nat := none
  email_suppressed : Bool := false
  linkedin_suppressed : Bool := false
  phone_suppressed : Bool := false
  data_enriched_at : Option Nat := none
  sequence_count : Nat := 0
deriving DecidableEq, Repr

/-- A row of the `companies` table (`core/models.py` `Company`), keyed by
`domain`. -/
structure Company where
  domain : String
  company_status : CompanyStatus := .fresh
  company_suppressed : Bool := false
  suppressed_reason : Option String := none
  suppressed_at : Option Nat := none
  contacts_total : Nat := 0
  contacts_in_sequence : Nat := 0
  contacts_touched : Nat := 0
  last_contact_date : Option Nat := none
  is_customer : Bool := false
  customer_since : Option Nat := none
  client_owner_id : Option String := none
  client_owned_at : Option Nat := none
  ownership_expires_at : Option Nat := none
deriving DecidableEq, Repr

/-- A row of the append-only `disposition_history` table. -/
structure HistoryRow where
  contact_email : String
  contact_client_id : String
  previous_status : Option DispositionStatus
  new_status : DispositionStatus
  transition_reason : Option String
  triggered_by : String
  campaign_id : Option String
  created_at : Nat
deriving DecidableEq, Repr

/-- A row of the append-only `client_ownership` change log. -/
structure OwnershipChange where
  company_domain : String
  previous_owner_id : Option String
  new_owner_id : Option String
  change_reason : String
  changed_at : Nat
deriving DecidableEq, Repr

/-- A row of the `campaign_assignments` table. -/
structure Assignment where
  contact_email : String
  contact_client_id : String
  campaign_id : String
  client_id : String
  channel : Channel
  assigned_at : Nat
deriving DecidableEq, Repr

/-- The relational store (`core/database.py` `Database`): one value per
table. -/
structure Store where
  contacts : List Contact
  companies : List Company
  history : List HistoryRow
  ownership_log : List OwnershipChange
  assignments : List Assignment
deriving DecidableEq, Repr

def emptyStore : Store := ⟨[], [], [], [], []⟩

/-- `Database.get_contact`: first row matching the `(email, client_id)`
key. -/
def lookupContact : List Contact → String → String → Option Contact
  | [], _, _ => none
  | c :: rest, e, cl =>
    if c.email = e ∧ c.client_id = cl then some c else lookupContact rest e cl

/-- `Database.get_company`: first row matching `domain`. -/
def lookupCompany : List Company → String → Option Company
  | [], _ => none
  | co :: rest, d => if co.domain = d then some co else lookupCompany rest d

/-- `Database.update_contact_fields`: apply `f` to every row with the
given key (the schema makes the key unique, so at most one row
changes). -/
def updContacts (e cl : String) (f : Contact → Contact) (l : List Contact) :
    List Contact :=
  l.map fun c => if c.email = e ∧ c.client_id = cl then f c else c

/-- `Database.update_company_fields`: apply `f` to every row with the
given domain. -/
def updCompanies (d : String) (f : Company → Company) (l : List Company) :
    List Company :=
  l.map fun co => if co.domain = d then f co else co

def Store.get_contact (st : Store) (e cl : String) : Option Contact :=
  lookupContact st.contacts e cl

def Store.get_company (st : Store) (d : String) : Option Company :=
  lookupCompany st.companies d

def Store.update_contact_fields (st : Store) (e cl : String)
    (f : Contact → Contact) : Store :=
  { st with contacts := updContacts e cl f st.contacts }

def Store.update_company_fields (st : Store) (d : String)
    (f : Company → Company) : Store :=
  { st with companies := updCompanies d f st.companies }

/-- Configuration defaults, from `core/config.py` `Settings`. -/
structure Settings where
  cooldown_no_response_days : Nat := 90
  cooldown_neutral_reply_days : Nat := 45
  cooldown_negative_reply_days : Nat := 180
  cooldown_lost_closed_days : Nat := 90
  ownership_duration_months : Nat := 12
  max_contacts_per_company : Nat := 3
  fresh_retouch_ratio : ℚ := 7/10
  stale_data_months : Nat := 6
  tam_warning_weeks : Nat := 8
  tam_critical_weeks : Nat := 4
deriving DecidableEq

def defaultSettings : Settings := {}

/-- The legal transition map of `state_machine.py` (`TRANSITIONS`). -/
def TRANSITIONS : DispositionStatus → List DispositionStatus
  | .fresh => [.in_sequence, .stale_data, .job_change_detected]
  | .in_sequence =>
    [.completed_no_response, .replied_positive, .replied_neutral,
     .replied_negative, .replied_hard_no, .bounced, .unsubscribed]
  | .completed_no_response => [.retouch_eligible, .stale_data, .job_change_detected]
  | .replied_positive => [.won_customer, .lost_closed]
  | .replied_neutral => [.retouch_eligible, .stale_data]
  | .replied_negative => [.retouch_eligible, .stale_data]
  | .replied_hard_no => []
  | .bounced => []
  | .unsubscribed => []
  | .retouch_eligible => [.in_sequence, .stale_data, .job_change_detected]
  | .stale_data => [.fresh, .retouch_eligible]
  | .job_change_detected => [.fresh]
  | .won_customer => []
  | .lost_closed => [.retouch_eligible]

/-- Payload of the `TransitionError` message: current status, requested
status, and the allowed target set. -/
structure TransitionRefusal where
  current : DispositionStatus
  target : DispositionStatus
  allowed : List DispositionStatus
deriving DecidableEq, Repr

/-- Errors raised by `StateMachine.transition`: `ValueError` on a missing
contact, `TransitionError` on an illegal transition. -/
inductive SMErr where
  | contact_not_found (email client_id : String)
  | illegal_transition (refusal : TransitionRefusal)
deriving DecidableEq, Repr

namespace StateMachine

/-- `StateMachine._validate_transition`: same-state is allowed, otherwise
the target must be in the transition map. -/
def validate_transition (current target : DispositionStatus) :
    Option TransitionRefusal :=
  if current = target then none
  else if target ∈ TRANSITIONS current then none
  else some ⟨current, target, TRANSITIONS current⟩

/-- `StateMachine._get_cooldown`: cooldown period (days) for a transition
target. -/
def get_cooldown (s : Settings) : DispositionStatus → Option Nat
  | .completed_no_response => some s.cooldown_no_response_days
  | .replied_neutral => some s.cooldown_neutral_reply_days
  | .replied_negative => some s.cooldown_negative_reply_days
  | .lost_closed => some s.cooldown_lost_closed_days
  | _ => none

/-- `StateMachine._get_suppression` applied to the contact row. -/
def apply_suppression (new_status : DispositionStatus) (c : Contact) : Contact :=
  if new_status = .replied_hard_no then
    { c with email_suppressed := true, linkedin_suppressed := true,
             phone_suppressed := true }
  else if new_status = .bounced ∨ new_status = .unsubscribed then
    { c with email_suppressed := true }
  else c

/-- The `updates` dict built by `StateMachine.transition` applied to the
contact row: new status, update timestamp, cooldown, suppression. -/
def applyContactUpdates (s : Settings) (now : Nat)
    (new_status : DispositionStatus) (c : Contact) : Contact :=
  let c1 := { c with disposition_status := new_status,
                     disposition_updated_at := some now }
  let c2 := match get_cooldown s new_status with
    | some d => { c1 with email_cooldown_until := some (now + d) }
    | none => c1
  apply_suppression new_status c2

/-- `StateMachine._update_company_state`: company counter and status
derivation for a contact transition `old_status → new_status`. -/
def update_company_state (st : Store) (domain : String)
    (old_status new_status : DispositionStatus) (now : Nat) : Store :=
  st.update_company_fields domain fun co =>
    let co1 :=
      if new_status = .in_sequence then
        { co with contacts_in_sequence := co.contacts_in_sequence + 1,
                  contacts_touched := co.contacts_touched + 1,
                  company_status := .active,
                  last_contact_date := some now }
      else if old_status = .in_sequence then
        let new_count := co.contacts_in_sequence - 1
        if new_count = 0 ∧ co.contacts_touched > 0 then
          { co with contacts_in_sequence := new_count,
                    company_status := .cooling }
        else { co with contacts_in_sequence := new_count }
      else co
    let co2 :=
      if new_status = .won_customer then
        { co1 with company_status := .customer, is_customer := true,
                   customer_since := some now }
      else co1
    if new_status = .replied_hard_no then
      { co2 with company_status := .suppressed, company_suppressed := true,
                 suppressed_reason := some "hard_no_received",
                 suppressed_at := some now }
    else co2

/-- `StateMachine._suppress_company`: set `email_suppressed` on every
contact at the domain (hard-no cascade, all clients). -/
def suppress_company (st : Store) (domain : String) : Store :=
  { st with contacts := st.contacts.map fun c =>
      if c.company_domain = domain then { c with email_suppressed := true }
      else c }

/-- `StateMachine.transition`: validate, update the contact, log history,
derive company state, and cascade suppression on a hard no. -/
def transition (s : Settings) (st : Store) (now : Nat) (email client_id : String)
    (new_status : DispositionStatus) (reason : Option String)
    (triggered_by : String) (campaign_id : Option String) :
    Except SMErr Store :=
  match lookupContact st.contacts email client_id with
  | none => .error (.contact_not_found email client_id)
  | some contact =>
    let current := contact.disposition_status
    match validate_transition current new_status with
    | some refusal => .error (.illegal_transition refusal)
    | none =>
      let st1 := st.update_contact_fields email client_id
        (applyContactUpdates s now new_status)
      let st2 := { st1 with history :=
        ⟨email, client_id, some current, new_status, reason, triggered_by,
         campaign_id, now⟩ :: st1.history }
      let st3 := update_company_state st2 contact.company_domain current
        new_status now
      if new_status = .replied_hard_no then
        .ok (suppress_company st3 contact.company_domain)
      else .ok st3

end StateMachine

/-- `Database._ensure_company`: lazily create the company row (all
column defaults) if the domain is absent. -/
def ensure_company (st : Store) (domain : String) : Store :=
  match lookupCompany st.companies domain with
  | some _ => st
  | none => { st with companies := st.companies ++ [{ domain := domain }] }

/-- `Database.create_contact`: ensure the company, insert the contact
row, and increment the company's `contacts_total`. -/
def create_contact (st : Store) (c : Contact) : Store :=
  let st1 := ensure_company st c.company_domain
  let st2 := { st1 with contacts := st1.contacts ++ [c] }
  st2.update_company_fields c.company_domain fun co =>
    { co with contacts_total := co.contacts_total + 1 }

/-- The contact row built by the CSV importer (`importer.py`) and the
waterfall write-back (`waterfall/writeback.py`): `disposition_status`
is always `FRESH`, suppression flags, cooldowns and `sequence_count`
take the column defaults. -/
def mkImportContact (email client_id domain : String)
    (title : Option String := none) (enriched : Option Nat := none) : Contact :=
  { email := email, client_id := client_id, company_domain := domain,
    last_known_title := title, data_enriched_at := enriched }

def suppressedCol (channel : Channel) (c : Contact) : Bool :=
  match channel with
  | .email => c.email_suppressed
  | .linkedin => c.linkedin_suppressed
  | .phone => c.phone_suppressed

def cooldownCol (channel : Channel) (c : Contact) : Option Nat :=
  match channel with
  | .email => c.email_cooldown_until
  | .linkedin => c.linkedin_cooldown_until
  | .phone => c.phone_cooldown_until

def setLastContacted (channel : Channel) (now : Nat) (c : Contact) : Contact :=
  match channel with
  | .email => { c with email_last_contacted := some now }
  | .linkedin => { c with linkedin_last_contacted := some now }
  | .phone => { c with phone_last_contacted := some now }

/-- `LOWER(last_known_title) LIKE '%kw%'` for at least one keyword. -/
def title_matches (kws : List String) (c : Contact) : Bool :=
  kws.any fun kw =>
    (c.last_known_title.getD "").toLower.containsSubstr kw.toLower

/-- The WHERE clause of `Database.query_eligible_contacts`, including the
JOIN on `companies` (a contact with no company row is dropped by the
join). -/
def eligiblePred (st : Store) (now : Nat) (client_id : String)
    (channel : Channel) (title_keywords : List String)
    (statuses : List DispositionStatus) (c : Contact) : Bool :=
  match lookupCompany st.companies c.company_domain with
  | none => false
  | some co =>
    decide (c.client_id = client_id) &&
    decide (c.disposition_status ∈ statuses) &&
    !(suppressedCol channel c) &&
    (match cooldownCol channel c with
     | none => true
     | some t => decide (t ≤ now)) &&
    !co.company_suppressed &&
    !co.is_customer &&
    (decide (co.client_owner_id = some client_id) ||
     decide (co.client_owner_id = none)) &&
    (match c.data_enriched_at with
     | none => true
     | some t => decide (t > now - 180)) &&
    (decide (title_keywords = []) || title_matches title_keywords c)

/-- The ORDER BY chain of the eligibility query: `FRESH` first, then
`data_enriched_at` descending with nulls last, then `sequence_count`
ascending. -/
def enriched_seq_le (a b : Contact) : Bool :=
  match a.data_enriched_at, b.data_enriched_at with
  | some x, some y =>
    decide (y < x) ||
      (decide (y = x) && decide (a.sequence_count ≤ b.sequence_count))
  | some _, none => true
  | none, some _ => false
  | none, none => decide (a.sequence_count ≤ b.sequence_count)

def query_le (a b : Contact) : Prop :=
  (if a.disposition_status = .fresh then 0 else 1) <
      (if b.disposition_status = .fresh then (0:Nat) else 1) ∨
  ((if a.disposition_status = .fresh then (0:Nat) else 1) =
      (if b.disposition_status = .fresh then 0 else 1) ∧
   enriched_seq_le a b = true)

instance : DecidableRel query_le := fun a b => by
  unfold query_le
  infer_instance

/-- `Database.query_eligible_contacts`: filter, order, limit. -/
def query_eligible_contacts (st : Store) (now : Nat) (client_id : String)
    (channel : Channel) (title_keywords : List String) (limit : Nat)
    (statuses : List DispositionStatus) : List Contact :=
  (List.insertionSort query_le
      (st.contacts.filter
        (eligiblePred st now client_id channel title_keywords statuses))).take
    limit

/-- `Database.get_expired_cooldowns`: cooldown statuses with a non-null
expired email cooldown. -/
def get_expired_cooldowns (st : Store) (now : Nat) : List Contact :=
  st.contacts.filter fun c =>
    decide (c.disposition_status ∈
      [DispositionStatus.completed_no_response, .replied_neutral,
       .replied_negative, .lost_closed]) &&
    (match c.email_cooldown_until with
     | some t => decide (t ≤ now)
     | none => false)

/-- `Database.get_stale_contacts`: enrichment older than `months · 30`
days and disposition outside the permanent-exclusion set. -/
def get_stale_contacts (st : Store) (now : Nat) (months : Nat) : List Contact :=
  st.contacts.filter fun c =>
    (match c.data_enriched_at with
     | some t => decide (t < now - months * 30)
     | none => false) &&
    decide (c.disposition_status ∉
      [DispositionStatus.replied_hard_no, .bounced, .unsubscribed,
       .won_customer, .stale_data])

namespace StateMachine

/-- The per-contact loop shared by both maintenance sweeps: transition
each selected contact, count successes, swallow `TransitionError`
(a missing contact raises `ValueError`, which propagates). -/
def sweepLoop (s : Settings) (now : Nat) (target : DispositionStatus)
    (reason : Option String) :
    Store → Nat → List Contact → Except SMErr (Nat × Store)
  | st, count, [] => .ok (count, st)
  | st, count, c :: rest =>
    match transition s st now c.email c.client_id target reason "system" none with
    | .ok st1 => sweepLoop s now target reason st1 (count + 1) rest
    | .error (.illegal_transition _) => sweepLoop s now target reason st count rest
    | .error e => .error e

/-- `StateMachine.process_expired_cooldowns`. -/
def process_expired_cooldowns (s : Settings) (st : Store) (now : Nat) :
    Except SMErr (Nat × Store) :=
  sweepLoop s now .retouch_eligible (some "cooldown_expired") st 0
    (get_expired_cooldowns st now)

/-- `StateMachine.process_stale_data`; like the source, a `months`
argument of `None` (or `0`, which is falsy in Python) falls back to
`Settings.stale_data_months`. -/
def process_stale_data (s : Settings) (st : Store) (now : Nat)
    (months : Option Nat) : Except SMErr (Nat × Store) :=
  let m := match months with
    | some k => if k = 0 then s.stale_data_months else k
    | none => s.stale_data_months
  sweepLoop s now .stale_data
    (some ("data_enriched_at older than " ++ toString m ++ " months")) st 0
    (get_stale_contacts st now m)

end StateMachine

/-- `CampaignFillRequest` (`core/models.py`). -/
structure CampaignFillRequest where
  campaign_id : String
  client_id : String
  channel : Channel := .email
  volume : Nat
  title_keywords : List String := []
  fresh_ratio : Option ℚ := none
  max_per_company : Option Nat := none
deriving DecidableEq

/-- `CampaignFillResult` (`core/models.py`). -/
structure CampaignFillResult where
  campaign_id : String
  client_id : String
  total_requested : Nat
  total_assigned : Nat
  fresh_count : Nat
  retouch_count : Nat
  companies_touched : Nat
  contacts : List Contact
  warnings : List String
deriving DecidableEq

namespace CampaignFillEngine

/-- `CampaignFillEngine._apply_company_cap`: greedy single pass; a
contact is skipped iff its domain's running count has reached the cap. -/
def apply_company_cap (contacts : List Contact) (max_per_company : Nat)
    (existing_counts : String → Nat) : List Contact :=
  match contacts with
  | [] => []
  | c :: rest =>
    if existing_counts c.company_domain < max_per_company then
      c :: apply_company_cap rest max_per_company
        (fun d => if d = c.company_domain then existing_counts d + 1
                  else existing_counts d)
    else apply_company_cap rest max_per_company existing_counts

/-- `CampaignFillEngine._count_by_company` as a total counting
function (missing key ↦ 0). -/
def count_by_company (contacts : List Contact) : String → Nat :=
  fun d => contacts.countP fun c => decide (c.company_domain = d)

/-- `fresh_target = int(request.volume * ratio)`: the float product is
modelled as an exact rational, truncated (for a nonnegative ratio this
is the floor `⌊V·r⌋`). -/
def fresh_target_of (volume : Nat) (ratio : ℚ) : Nat :=
  Int.toNat ⌊(volume : ℚ) * ratio⌋

/-- Steps 5–7 of `CampaignFillEngine.fill` (lines 68–88): cap both
lists, take the first `fresh_target` fresh, extend with retouch up to
the remaining volume, then backfill from the remaining fresh. -/
def fillSelect (volume : Nat) (ratio : ℚ) (max_per_co : Nat)
    (fresh_contacts retouch_contacts : List Contact) : List Contact :=
  let fresh_target := fresh_target_of volume ratio
  let selected_fresh := apply_company_cap fresh_contacts max_per_co (fun _ => 0)
  let company_counts := count_by_company selected_fresh
  let selected_retouch :=
    apply_company_cap retouch_contacts max_per_co company_counts
  let first := selected_fresh.take fresh_target
  let withRetouch := first ++ selected_retouch.take (volume - first.length)
  withRetouch ++
    (selected_fresh.drop fresh_target).take (volume - withRetouch.length)

/-- `request.max_per_company or settings.max_contacts_per_company`
(`0` and `None` are both falsy in Python). -/
def effective_max_per_company (s : Settings) (req : CampaignFillRequest) : Nat :=
  match req.max_per_company with
  | some m => if m = 0 then s.max_contacts_per_company else m
  | none => s.max_contacts_per_company

/-- `request.fresh_ratio if request.fresh_ratio is not None else
settings.fresh_retouch_ratio`. -/
def effective_ratio (s : Settings) (req : CampaignFillRequest) : ℚ :=
  match req.fresh_ratio with
  | some r => r
  | none => s.fresh_retouch_ratio

/-- `CampaignFillEngine._assign_contact`: transition to `IN_SEQUENCE`,
bump `sequence_count` and the channel's last-contacted, append the
assignment row, and claim ownership if the company is unowned. -/
def assign_contact (s : Settings) (st : Store) (now : Nat) (c : Contact)
    (req : CampaignFillRequest) : Except SMErr Store :=
  match StateMachine.transition s st now c.email c.client_id .in_sequence
      (some ("assigned_to_campaign:" ++ req.campaign_id)) "campaign_fill"
      (some req.campaign_id) with
  | .error e => .error e
  | .ok st1 =>
    let st2 := st1.update_contact_fields c.email c.client_id fun r =>
      setLastContacted req.channel now
        { r with sequence_count := c.sequence_count + 1 }
    let st3 := { st2 with assignments := st2.assignments ++
      [⟨c.email, c.client_id, req.campaign_id, req.client_id, req.channel, now⟩] }
    match lookupCompany st3.companies c.company_domain with
    | some co =>
      if co.client_owner_id = none then
        let expiry := now + s.ownership_duration_months * 30
        let st4 := st3.update_company_fields c.company_domain fun x =>
          { x with client_owner_id := some req.client_id,
                   client_owned_at := some now,
                   ownership_expires_at := some expiry }
        .ok { st4 with ownership_log :=
          ⟨c.company_domain, none, some req.client_id, "first_claim", now⟩ ::
            st4.ownership_log }
      else .ok st3
    | none => .ok st3

/-- The assignment loop of `CampaignFillEngine.fill`: a failed
assignment aborts the fill (nothing is recovered per contact). -/
def assignLoop (s : Settings) (now : Nat) (req : CampaignFillRequest) :
    Store → List Contact → Except SMErr Store
  | st, [] => .ok st
  | st, c :: rest =>
    match assign_contact s st now c req with
    | .error e => .error e
    | .ok st1 => assignLoop s now req st1 rest

/-- `CampaignFillEngine.fill`: query fresh and retouch eligibility,
apply caps and compose the selection, assign each selected contact,
and return the structured result. -/
def fill (s : Settings) (st : Store) (now : Nat) (req : CampaignFillRequest) :
    Except SMErr (Store × CampaignFillResult) :=
  let ratio := effective_ratio s req
  let max_per_co := effective_max_per_company s req
  let fresh_target := fresh_target_of req.volume ratio
  let fresh_contacts := query_eligible_contacts st now req.client_id
    req.channel req.title_keywords (fresh_target * 2) [.fresh]
  let retouch_target := req.volume - fresh_target
  let retouch_contacts := query_eligible_contacts st now req.client_id
    req.channel req.title_keywords (retouch_target * 2) [.retouch_eligible]
  let warnings1 :=
    if fresh_contacts.length < fresh_target then
      ["Insufficient fresh leads: requested " ++ toString fresh_target ++
       ", found " ++ toString fresh_contacts.length]
    else []
  let all_selected := fillSelect req.volume ratio max_per_co
    fresh_contacts retouch_contacts
  let warnings2 :=
    if all_selected.length < req.volume then
      warnings1 ++ ["Volume shortfall: requested " ++ toString req.volume ++
        ", assigned " ++ toString all_selected.length]
    else warnings1
  match assignLoop s now req st all_selected with
  | .error e => .error e
  | .ok st1 =>
    .ok (st1,
      { campaign_id := req.campaign_id,
        client_id := req.client_id,
        total_requested := req.volume,
        total_assigned := all_selected.length,
        fresh_count := all_selected.countP
          (fun c => decide (c.disposition_status = .fresh)),
        retouch_count := all_selected.countP
          (fun c => decide (¬ c.disposition_status = .fresh)),
        companies_touched := (all_selected.map Contact.company_domain).dedup.length,
        contacts := all_selected,
        warnings := warnings2 })

end CampaignFillEngine

namespace Deconfliction

/-- The three ownership fields written by `claim_ownership` (the
keyword arguments of its `update_company_fields` call). -/
def set_ownership_fields (client_id : String) (now expiry : Nat)
    (co : Company) : Company :=
  { co with client_owner_id := some client_id,
            client_owned_at := some now,
            ownership_expires_at := some expiry }

/-- `Deconfliction.claim_ownership`: claim if the company exists and is
unowned or already owned by this client; reset the ownership window and
log a `first_claim` change. -/
def claim_ownership (s : Settings) (st : Store) (now : Nat)
    (domain client_id : String) : Bool × Store :=
  match lookupCompany st.companies domain with
  | none => (false, st)
  | some company =>
    if company.client_owner_id ≠ none ∧
        company.client_owner_id ≠ some client_id then
      (false, st)
    else
      let expiry := now + s.ownership_duration_months * 30
      let st1 := st.update_company_fields domain
        (set_ownership_fields client_id now expiry)
      (true, { st1 with ownership_log :=
        ⟨domain, company.client_owner_id, some client_id, "first_claim", now⟩ ::
          st1.ownership_log })

end Deconfliction

/-- The pool-segmentation aggregate of `Database.get_tam_pools`. -/
structure TAMPools where
  total_universe : Nat
  never_touched : Nat
  in_cooldown : Nat
  available_now : Nat
  permanent_suppress : Nat
  in_sequence : Nat
  won_customer : Nat
deriving DecidableEq

/-- `TAMHealth` (`core/models.py`). -/
structure TAMHealth where
  total_universe : Nat
  never_touched : Nat
  in_cooldown : Nat
  available_now : Nat
  permanent_suppress : Nat
  in_sequence : Nat
  won_customer : Nat
  burn_rate_weekly : Nat
  exhaustion_eta_weeks : Option ℚ
  health_status : String
deriving DecidableEq

namespace TAMTracker

def inScope (client : Option String) (c : Contact) : Bool :=
  match client with
  | none => true
  | some cl => c.client_id = cl

/-- `Database.get_tam_pools`. -/
def get_tam_pools (st : Store) (now : Nat) (client : Option String) : TAMPools :=
  let inScopeRows := st.contacts.filter (inScope client)
  { total_universe := inScopeRows.length,
    never_touched := inScopeRows.countP fun c =>
      decide (c.disposition_status = .fresh ∧ c.sequence_count = 0),
    in_cooldown := inScopeRows.countP fun c =>
      decide (c.disposition_status ∈
        [DispositionStatus.completed_no_response, .replied_neutral,
         .replied_negative, .lost_closed]) &&
      (match c.email_cooldown_until with
       | some t => decide (t > now)
       | none => false),
    available_now := inScopeRows.countP fun c =>
      decide (c.disposition_status ∈
        [DispositionStatus.fresh, .retouch_eligible]) &&
      !c.email_suppressed &&
      (match c.email_cooldown_until with
       | some t => decide (t ≤ now)
       | none => true),
    permanent_suppress := inScopeRows.countP fun c =>
      decide (c.disposition_status ∈
        [DispositionStatus.replied_hard_no, .bounced, .unsubscribed]),
    in_sequence := inScopeRows.countP fun c =>
      decide (c.disposition_status = .in_sequence),
    won_customer := inScopeRows.countP fun c =>
      decide (c.disposition_status = .won_customer) }

/-- `Database.get_burn_rate`: history rows moved to `in_sequence` in the
last 7 days (the source returns this count as a float). -/
def get_burn_rate (st : Store) (now : Nat) (client : Option String) : Nat :=
  st.history.countP fun h =>
    decide (h.new_status = .in_sequence) &&
    decide (h.created_at > now - 7) &&
    (match client with
     | none => true
     | some cl => decide (h.contact_client_id = cl))

/-- `TAMTracker.get_health`: pools, burn rate, exhaustion ETA and
health classification. -/
def get_health (s : Settings) (st : Store) (now : Nat)
    (client : Option String) : TAMHealth :=
  let pools := get_tam_pools st now client
  let burn_rate := get_burn_rate st now client
  let available := pools.available_now
  let eta : Option ℚ :=
    if burn_rate > 0 then some ((available : ℚ) / (burn_rate : ℚ)) else none
  let health_status :=
    match eta with
    | none => "healthy"
    | some e =>
      if e < (s.tam_critical_weeks : ℚ) then "critical"
      else if e < (s.tam_warning_weeks : ℚ) then "warning"
      else "healthy"
  { total_universe := pools.total_universe,
    never_touched := pools.never_touched,
    in_cooldown := pools.in_cooldown,
    available_now := available,
    permanent_suppress := pools.permanent_suppress,
    in_sequence := pools.in_sequence,
    won_customer := pools.won_customer,
    burn_rate_weekly := burn_rate,
    exhaustion_eta_weeks := eta,
    health_status := health_status }

end TAMTracker

/-- An externally-sourced lead (`providers/base.py` `ExternalLead`),
reduced to the fields the waterfall metrics depend on. -/
structure Lead where
  email : String
  company_domain : Option String := none
deriving DecidableEq

/-- `ProviderResult` (`providers/base.py`). -/
structure ProviderResult where
  leads : List Lead
  total_found : Nat
  credits_consumed : ℚ
  errors : List String
deriving DecidableEq

/-- A provider adapter as seen by the waterfall: `search_leads` either
returns a result or raises (modelled as `Except.error` with the
exception message). -/
structure Provider where
  provider_name : String
  search_leads : Nat → Except String ProviderResult

namespace WaterfallEngine

/-- The mutable aggregate the provider loop of
`WaterfallEngine.fill_campaign` threads through its iterations. -/
structure CascadeState where
  deficit : Int
  total_credits : ℚ
  warnings : List String
  per_provider_counts : List (String × Nat)
  credits_consumed : List (String × ℚ)
  leads : List Lead

/-- The provider cascade (step 3 of `WaterfallEngine.fill_campaign`,
lines 157–200): stop on no deficit, warn and stop at the credit limit,
turn a raising `search_leads` into a warning and continue, otherwise
accumulate the result and decrement the deficit by the count
returned. -/
def cascade (max_credits : ℚ) : CascadeState → List Provider → CascadeState
  | acc, [] => acc
  | acc, p :: rest =>
    if acc.deficit ≤ 0 then acc
    else if acc.total_credits ≥ max_credits then
      { acc with warnings := acc.warnings ++ ["Credit limit reached"] }
    else
      match p.search_leads acc.deficit.toNat with
      | .error e =>
        cascade max_credits
          { acc with warnings :=
              acc.warnings ++ [p.provider_name ++ " error: " ++ e] } rest
      | .ok r =>
        cascade max_credits
          { acc with
            warnings := acc.warnings ++ r.errors,
            per_provider_counts :=
              acc.per_provider_counts ++ [(p.provider_name, r.leads.length)],
            credits_consumed :=
              acc.credits_consumed ++ [(p.provider_name, r.credits_consumed)],
            total_credits := acc.total_credits + r.credits_consumed,
            leads := acc.leads ++ r.leads,
            deficit := acc.deficit - r.leads.length } rest

end WaterfallEngine

instance {ε α : Type} [DecidableEq ε] [DecidableEq α] :
    DecidableEq (Except ε α) := fun a b =>
  match a, b with
  | .ok x, .ok y =>
    if h : x = y then isTrue (by rw [h])
    else isFalse (by intro he; exact h (Except.ok.inj he))
  | .error x, .error y =>
    if h : x = y then isTrue (by rw [h])
    else isFalse (by intro he; exact h (Except.error.inj he))
  | .ok _, .error _ => isFalse (by intro he; exact Except.noConfusion he)
  | .error _, .ok _ => isFalse (by intro he; exact Except.noConfusion he)

/-! ### Well-formedness of a store

The SQL schema enforces that `(email, client_id)` is the contacts
primary key and `domain` the companies primary key; the list model
carries both as `Pairwise` distinctness. -/

/-- Two contact rows differ on the `(email, client_id)` primary key. -/
def keyNe (a b : Contact) : Prop :=
  ¬ (a.email = b.email ∧ a.client_id = b.client_id)

theorem keyNe_symm : ∀ {a b : Contact}, keyNe a b → keyNe b a := by
  intro a b h hc
  exact h ⟨hc.1.symm, hc.2.symm⟩

instance : DecidableRel keyNe := fun a b => by
  unfold keyNe
  infer_instance

def ContactsOk (st : Store) : Prop := st.contacts.Pairwise keyNe

def CompaniesOk (st : Store) : Prop :=
  st.companies.Pairwise fun a b => a.domain ≠ b.domain

/-- Every contact's domain has a company row (maintained by
`_ensure_company` on every insert path). -/
def HasCompany (st : Store) : Prop :=
  ∀ c ∈ st.contacts, ∃ co ∈ st.companies, co.domain = c.company_domain

/-- Predicate: a contact at company `d` currently `IN_SEQUENCE`. -/
def inSeqP (d : String) (c : Contact) : Bool :=
  decide (c.company_domain = d ∧ c.disposition_status = .in_sequence)

/-- Number of contacts at `d` whose disposition is `IN_SEQUENCE`. -/
def inSeqCount (st : Store) (d : String) : Nat :=
  st.contacts.countP (inSeqP d)

/-- Invariant 4 of spec §8: every company's `contacts_in_sequence`
counter equals the number of its `IN_SEQUENCE` contacts. -/
def CounterConsistent (st : Store) : Prop :=
  ∀ co ∈ st.companies, co.contacts_in_sequence = inSeqCount st co.domain

def Inv (st : Store) : Prop :=
  ContactsOk st ∧ CompaniesOk st ∧ HasCompany st ∧ CounterConsistent st

instance : DecidablePred CounterConsistent := fun st => by
  unfold CounterConsistent
  infer_instance

/-! ### Lookup and update lemmas -/

theorem lookupContact_some {l : List Contact} {e cl : String} {c : Contact}
    (h : lookupContact l e cl = some c) :
    c ∈ l ∧ c.email = e ∧ c.client_id = cl := by
  induction l with
  | nil => simp [lookupContact] at h
  | cons a l ih =>
    by_cases hk : a.email = e ∧ a.client_id = cl
    · rw [lookupContact, if_pos hk] at h
      obtain rfl : a = c := by injection h
      exact ⟨List.mem_cons_self a l, hk⟩
    · rw [lookupContact, if_neg hk] at h
      obtain ⟨hm, hp⟩ := ih h
      exact ⟨List.mem_cons_of_mem _ hm, hp⟩

theorem lookupContact_eq_none {l : List Contact} {e cl : String} :
    lookupContact l e cl = none ↔
      ∀ c ∈ l, ¬ (c.email = e ∧ c.client_id = cl) := by
  induction l with
  | nil => simp [lookupContact]
  | cons a l ih =>
    by_cases hk : a.email = e ∧ a.client_id = cl
    · rw [lookupContact, if_pos hk]
      simp only [iff_false_intro (Option.some_ne_none a), false_iff]
      intro h
      exact h a (List.mem_cons_self a l) hk
    · rw [lookupContact, if_neg hk, ih]
      constructor
      · intro h c hc
        rcases List.mem_cons.mp hc with rfl | hc
        · exact hk
        · exact h c hc
      · intro h c hc
        exact h c (List.mem_cons_of_mem _ hc)

theorem lookupContact_of_mem {l : List Contact} {c : Contact}
    (hp : l.Pairwise keyNe) (hm : c ∈ l) :
    lookupContact l c.email c.client_id = some c := by
  induction l with
  | nil => cases hm
  | cons a l ih =>
    rcases List.mem_cons.mp hm with rfl | hm
    · rw [lookupContact, if_pos ⟨rfl, rfl⟩]
    · have hne : keyNe a c := (List.pairwise_cons.mp hp).1 c hm
      rw [lookupContact, if_neg hne]
      exact ih (List.pairwise_cons.mp hp).2 hm

theorem contact_key_unique {l : List Contact} {a b : Contact}
    (hp : l.Pairwise keyNe) (ha : a ∈ l) (hb : b ∈ l)
    (he : a.email = b.email) (hc : a.client_id = b.client_id) : a = b := by
  have h1 := lookupContact_of_mem hp ha
  have h2 := lookupContact_of_mem hp hb
  rw [he, hc, h2] at h1
  injection h1 with h
  exact h.symm

theorem lookupCompany_some {l : List Company} {d : String} {co : Company}
    (h : lookupCompany l d = some co) : co ∈ l ∧ co.domain = d := by
  induction l with
  | nil => simp [lookupCompany] at h
  | cons a l ih =>
    by_cases hk : a.domain = d
    · rw [lookupCompany, if_pos hk] at h
      obtain rfl : a = co := by injection h
      exact ⟨List.mem_cons_self a l, hk⟩
    · rw [lookupCompany, if_neg hk] at h
      obtain ⟨hm, hp⟩ := ih h
      exact ⟨List.mem_cons_of_mem _ hm, hp⟩

theorem lookupCompany_eq_none {l : List Company} {d : String} :
    lookupCompany l d = none ↔ ∀ co ∈ l, co.domain ≠ d := by
  induction l with
  | nil => simp [lookupCompany]
  | cons a l ih =>
    by_cases hk : a.domain = d
    · rw [lookupCompany, if_pos hk]
      simp only [iff_false_intro (Option.some_ne_none a), false_iff]
      intro h
      exact h a (List.mem_cons_self a l) hk
    · rw [lookupCompany, if_neg hk, ih]
      constructor
      · intro h co hco
        rcases List.mem_cons.mp hco with rfl | hco
        · exact hk
        · exact h co hco
      · intro h co hco
        exact h co (List.mem_cons_of_mem _ hco)

theorem lookupCompany_of_mem {l : List Company} {co : Company}
    (hp : l.Pairwise fun a b => a.domain ≠ b.domain) (hm : co ∈ l) :
    lookupCompany l co.domain = some co := by
  induction l with
  | nil => cases hm
  | cons a l ih =>
    rcases List.mem_cons.mp hm with rfl | hm
    · rw [lookupCompany, if_pos rfl]
    · have hne := (List.pairwise_cons.mp hp).1 co hm
      rw [lookupCompany, if_neg hne]
      exact ih (List.pairwise_cons.mp hp).2 hm

/-- A successful lookup splits the table into the rows scanned past
(none of which match the key) and the rest. -/
theorem lookupContact_decomp {l : List Contact} {e cl : String} {c : Contact}
    (h : lookupContact l e cl = some c) :
    ∃ l1 l2, l = l1 ++ c :: l2 ∧
      ∀ x ∈ l1, ¬ (x.email = e ∧ x.client_id = cl) := by
  induction l with
  | nil => simp [lookupContact] at h
  | cons a l ih =>
    by_cases hk : a.email = e ∧ a.client_id = cl
    · rw [lookupContact, if_pos hk] at h
      obtain rfl : a = c := by injection h
      exact ⟨[], l, rfl, by simp⟩
    · rw [lookupContact, if_neg hk] at h
      obtain ⟨l1, l2, rfl, h1⟩ := ih h
      refine ⟨a :: l1, l2, rfl, ?_⟩
      intro x hx
      rcases List.mem_cons.mp hx with rfl | hx
      · exact hk
      · exact h1 x hx

theorem lookupCompany_decomp {l : List Company} {d : String} {co : Company}
    (h : lookupCompany l d = some co) :
    ∃ l1 l2, l = l1 ++ co :: l2 ∧ ∀ x ∈ l1, x.domain ≠ d := by
  induction l with
  | nil => simp [lookupCompany] at h
  | cons a l ih =>
    by_cases hk : a.domain = d
    · rw [lookupCompany, if_pos hk] at h
      obtain rfl : a = co := by injection h
      exact ⟨[], l, rfl, by simp⟩
    · rw [lookupCompany, if_neg hk] at h
      obtain ⟨l1, l2, rfl, h1⟩ := ih h
      refine ⟨a :: l1, l2, rfl, ?_⟩
      intro x hx
      rcases List.mem_cons.mp hx with rfl | hx
      · exact hk
      · exact h1 x hx

theorem map_id_of_mem {α : Type} {l : List α} {f : α → α}
    (h : ∀ x ∈ l, f x = x) : l.map f = l :=
  (List.map_congr_left h).trans l.map_id

/-- Updating by key rewrites exactly the matching rows: on a decomposed
table only the looked-up row changes. -/
theorem updContacts_decomp {l1 l2 : List Contact} {e cl : String} {c : Contact}
    (f : Contact → Contact)
    (hc : c.email = e ∧ c.client_id = cl)
    (h1 : ∀ x ∈ l1, ¬ (x.email = e ∧ x.client_id = cl))
    (h2 : ∀ x ∈ l2, ¬ (x.email = e ∧ x.client_id = cl)) :
    updContacts e cl f (l1 ++ c :: l2) = l1 ++ f c :: l2 := by
  unfold updContacts
  rw [List.map_append, List.map_cons, if_pos hc]
  rw [map_id_of_mem (fun x hx => if_neg (h1 x hx)),
      map_id_of_mem (fun x hx => if_neg (h2 x hx))]

theorem updCompanies_decomp {l1 l2 : List Company} {d : String} {co : Company}
    (f : Company → Company)
    (hc : co.domain = d)
    (h1 : ∀ x ∈ l1, x.domain ≠ d)
    (h2 : ∀ x ∈ l2, x.domain ≠ d) :
    updCompanies d f (l1 ++ co :: l2) = l1 ++ f co :: l2 := by
  unfold updCompanies
  rw [List.map_append, List.map_cons, if_pos hc]
  rw [map_id_of_mem (fun x hx => if_neg (h1 x hx)),
      map_id_of_mem (fun x hx => if_neg (h2 x hx))]

theorem lookupContact_map {l : List Contact} {e cl : String}
    {g : Contact → Contact}
    (hg : ∀ x, (g x).email = x.email ∧ (g x).client_id = x.client_id) :
    lookupContact (l.map g) e cl = (lookupContact l e cl).map g := by
  induction l with
  | nil => simp [lookupContact]
  | cons a l ih =>
    by_cases hk : a.email = e ∧ a.client_id = cl
    · rw [List.map_cons, lookupContact, lookupContact, if_pos hk,
        if_pos (by rw [(hg a).1, (hg a).2]; exact hk)]
      rfl
    · rw [List.map_cons, lookupContact, lookupContact, if_neg hk,
        if_neg (by rw [(hg a).1, (hg a).2]; exact hk)]
      exact ih

theorem lookupCompany_map {l : List Company} {d : String}
    {g : Company → Company} (hg : ∀ x, (g x).domain = x.domain) :
    lookupCompany (l.map g) d = (lookupCompany l d).map g := by
  induction l with
  | nil => simp [lookupCompany]
  | cons a l ih =>
    by_cases hk : a.domain = d
    · rw [List.map_cons, lookupCompany, lookupCompany, if_pos hk,
        if_pos (by rw [hg a]; exact hk)]
      rfl
    · rw [List.map_cons, lookupCompany, lookupCompany, if_neg hk,
        if_neg (by rw [hg a]; exact hk)]
      exact ih

/-- A key-based update leaves every other key's lookup unchanged
(provided the update preserves the key columns). -/
theorem lookupContact_updContacts_ne {l : List Contact} {e cl e2 cl2 : String}
    {f : Contact → Contact}
    (hf : ∀ x, (f x).email = x.email ∧ (f x).client_id = x.client_id)
    (hne : ¬ (e2 = e ∧ cl2 = cl)) :
    lookupContact (updContacts e cl f l) e2 cl2 = lookupContact l e2 cl2 := by
  have hg : ∀ x : Contact,
      ((if x.email = e ∧ x.client_id = cl then f x else x)).email = x.email ∧
      ((if x.email = e ∧ x.client_id = cl then f x else x)).client_id =
        x.client_id := by
    intro x
    split
    · exact hf x
    · exact ⟨rfl, rfl⟩
  rw [updContacts, lookupContact_map hg]
  rcases hl : lookupContact l e2 cl2 with _ | r
  · rfl
  · obtain ⟨_, he, hc⟩ := lookupContact_some hl
    have hnr : ¬ (r.email = e ∧ r.client_id = cl) := by
      rw [he, hc]; exact hne
    rw [Option.map_some', if_neg hnr]

theorem lookupContact_updContacts_self {l : List Contact} {e cl : String}
    {f : Contact → Contact}
    (hf : ∀ x, (f x).email = x.email ∧ (f x).client_id = x.client_id) :
    lookupContact (updContacts e cl f l) e cl =
      (lookupContact l e cl).map f := by
  have hg : ∀ x : Contact,
      ((if x.email = e ∧ x.client_id = cl then f x else x)).email = x.email ∧
      ((if x.email = e ∧ x.client_id = cl then f x else x)).client_id =
        x.client_id := by
    intro x
    split
    · exact hf x
    · exact ⟨rfl, rfl⟩
  rw [updContacts, lookupContact_map hg]
  rcases hl : lookupContact l e cl with _ | r
  · rfl
  · obtain ⟨_, he, hc⟩ := lookupContact_some hl
    rw [Option.map_some', Option.map_some', if_pos ⟨he, hc⟩]

theorem lookupCompany_updCompanies_ne {l : List Company} {d d2 : String}
    {f : Company → Company} (hf : ∀ x, (f x).domain = x.domain)
    (hne : d2 ≠ d) :
    lookupCompany (updCompanies d f l) d2 = lookupCompany l d2 := by
  have hg : ∀ x : Company,
      ((if x.domain = d then f x else x)).domain = x.domain := by
    intro x
    split
    · exact hf x
    · rfl
  rw [updCompanies, lookupCompany_map hg]
  rcases hl : lookupCompany l d2 with _ | r
  · rfl
  · obtain ⟨_, hd⟩ := lookupCompany_some hl
    have hnr : ¬ r.domain = d := by rw [hd]; exact hne
    rw [Option.map_some', if_neg hnr]

theorem lookupCompany_updCompanies_self {l : List Company} {d : String}
    {f : Company → Company} (hf : ∀ x, (f x).domain = x.domain) :
    lookupCompany (updCompanies d f l) d = (lookupCompany l d).map f := by
  have hg : ∀ x : Company,
      ((if x.domain = d then f x else x)).domain = x.domain := by
    intro x
    split
    · exact hf x
    · rfl
  rw [updCompanies, lookupCompany_map hg]
  rcases hl : lookupCompany l d with _ | r
  · rfl
  · obtain ⟨_, hd⟩ := lookupCompany_some hl
    rw [Option.map_some', Option.map_some', if_pos hd]

/-! ### Shape of a successful transition -/

namespace StateMachine

theorem validate_transition_eq_none {cur T : DispositionStatus} :
    validate_transition cur T = none ↔ cur = T ∨ T ∈ TRANSITIONS cur := by
  unfold validate_transition
  split_ifs with h1 h2 <;> simp_all

theorem validate_transition_eq_some {cur T : DispositionStatus}
    {ref : TransitionRefusal} :
    validate_transition cur T = some ref ↔
      cur ≠ T ∧ T ∉ TRANSITIONS cur ∧ ref = ⟨cur, T, TRANSITIONS cur⟩ := by
  unfold validate_transition
  split_ifs with h1 h2 <;> simp_all
  exact comm

/-- The store produced by a successful `StateMachine.transition` of a
contact whose pre-state is `current` at company `domain`. -/
def transitionResult (s : Settings) (st : Store) (now : Nat) (e cl : String)
    (current : DispositionStatus) (domain : String) (T : DispositionStatus)
    (reason : Option String) (tb : String) (cid : Option String) : Store :=
  let st1 := st.update_contact_fields e cl (applyContactUpdates s now T)
  let st2 := { st1 with history :=
    ⟨e, cl, some current, T, reason, tb, cid, now⟩ :: st1.history }
  let st3 := update_company_state st2 domain current T now
  if T = .replied_hard_no then suppress_company st3 domain else st3

theorem transition_eq_ok {s : Settings} {st : Store} {now : Nat}
    {e cl : String} {c : Contact} {T : DispositionStatus}
    {reason : Option String} {tb : String} {cid : Option String}
    (h : lookupContact st.contacts e cl = some c)
    (hv : validate_transition c.disposition_status T = none) :
    transition s st now e cl T reason tb cid =
      .ok (transitionResult s st now e cl c.disposition_status
            c.company_domain T reason tb cid) := by
  unfold transition transitionResult
  rw [h]
  simp only
  rw [hv]
  simp only
  by_cases hT : T = .replied_hard_no
  · rw [if_pos hT, if_pos hT]
  · rw [if_neg hT, if_neg hT]

theorem transition_ok_elim {s : Settings} {st st' : Store} {now : Nat}
    {e cl : String} {T : DispositionStatus} {reason : Option String}
    {tb : String} {cid : Option String}
    (h : transition s st now e cl T reason tb cid = .ok st') :
    ∃ c, lookupContact st.contacts e cl = some c ∧
      validate_transition c.disposition_status T = none ∧
      st' = transitionResult s st now e cl c.disposition_status
        c.company_domain T reason tb cid := by
  rcases hl : lookupContact st.contacts e cl with _ | c
  · unfold transition at h
    rw [hl] at h
    cases h
  · rcases hv : validate_transition c.disposition_status T with _ | ref
    · rw [transition_eq_ok hl hv] at h
      exact ⟨c, rfl, hv, (Except.ok.inj h).symm⟩
    · unfold transition at h
      rw [hl] at h
      simp only at h
      rw [hv] at h
      cases h

theorem transition_eq_error_not_found {s : Settings} {st : Store} {now : Nat}
    {e cl : String} {T : DispositionStatus} {reason : Option String}
    {tb : String} {cid : Option String}
    (h : lookupContact st.contacts e cl = none) :
    transition s st now e cl T reason tb cid =
      .error (.contact_not_found e cl) := by
  unfold transition
  rw [h]

theorem transition_eq_error_illegal {s : Settings} {st : Store} {now : Nat}
    {e cl : String} {c : Contact} {T : DispositionStatus}
    {reason : Option String} {tb : String} {cid : Option String}
    {ref : TransitionRefusal}
    (h : lookupContact st.contacts e cl = some c)
    (hv : validate_transition c.disposition_status T = some ref) :
    transition s st now e cl T reason tb cid =
      .error (.illegal_transition ref) := by
  unfold transition
  rw [h]
  simp only
  rw [hv]

/-! ### Field preservation of the row-update functions -/

theorem applyContactUpdates_fields (s : Settings) (now : Nat)
    (T : DispositionStatus) (c : Contact) :
    (applyContactUpdates s now T c).email = c.email ∧
    (applyContactUpdates s now T c).client_id = c.client_id ∧
    (applyContactUpdates s now T c).company_domain = c.company_domain ∧
    (applyContactUpdates s now T c).disposition_status = T := by
  unfold applyContactUpdates apply_suppression
  cases get_cooldown s T <;> simp only <;> split_ifs <;>
    exact ⟨rfl, rfl, rfl, rfl⟩

/-- The company-row function applied by `_update_company_state`. -/
def companyDerive (old_status new_status : DispositionStatus) (now : Nat)
    (co : Company) : Company :=
  let co1 :=
    if new_status = .in_sequence then
      { co with contacts_in_sequence := co.contacts_in_sequence + 1,
                contacts_touched := co.contacts_touched + 1,
                company_status := .active,
                last_contact_date := some now }
    else if old_status = .in_sequence then
      let new_count := co.contacts_in_sequence - 1
      if new_count = 0 ∧ co.contacts_touched > 0 then
        { co with contacts_in_sequence := new_count,
                  company_status := .cooling }
      else { co with contacts_in_sequence := new_count }
    else co
  let co2 :=
    if new_status = .won_customer then
      { co1 with company_status := .customer, is_customer := true,
                 customer_since := some now }
    else co1
  if new_status = .replied_hard_no then
    { co2 with company_status := .suppressed, company_suppressed := true,
               suppressed_reason := some "hard_no_received",
               suppressed_at := some now }
  else co2

theorem update_company_state_eq (st : Store) (domain : String)
    (old_status new_status : DispositionStatus) (now : Nat) :
    update_company_state st domain old_status new_status now =
      st.update_company_fields domain (companyDerive old_status new_status now) :=
  rfl

theorem companyDerive_domain (old_status new_status : DispositionStatus)
    (now : Nat) (co : Company) :
    (companyDerive old_status new_status now co).domain = co.domain := by
  simp only [companyDerive]
  split_ifs <;> rfl

theorem companyDerive_counter (old_status new_status : DispositionStatus)
    (now : Nat) (co : Company) :
    (companyDerive old_status new_status now co).contacts_in_sequence =
      (if new_status = .in_sequence then co.contacts_in_sequence + 1
       else if old_status = .in_sequence then co.contacts_in_sequence - 1
       else co.contacts_in_sequence) := by
  simp only [companyDerive]
  split_ifs <;> rfl

end StateMachine

/-! ### Invariant preservation machinery -/

theorem countP_map_eq {α : Type} {l : List α} {g : α → α} {p : α → Bool}
    (hg : ∀ x, p (g x) = p x) : (l.map g).countP p = l.countP p := by
  induction l with
  | nil => rfl
  | cons a l ih => rw [List.map_cons, List.countP_cons, List.countP_cons, hg a, ih]

theorem pairwise_keyNe_map {l : List Contact} {g : Contact → Contact}
    (hg : ∀ x, (g x).email = x.email ∧ (g x).client_id = x.client_id)
    (hp : l.Pairwise keyNe) : (l.map g).Pairwise keyNe := by
  rw [List.pairwise_map]
  refine hp.imp ?_
  intro a b h hc
  apply h
  rw [← (hg a).1, ← (hg b).1, ← (hg a).2, ← (hg b).2]
  exact hc

theorem pairwise_domNe_map {l : List Company} {g : Company → Company}
    (hg : ∀ x, (g x).domain = x.domain)
    (hp : l.Pairwise fun a b => a.domain ≠ b.domain) :
    (l.map g).Pairwise fun a b => a.domain ≠ b.domain := by
  rw [List.pairwise_map]
  refine hp.imp ?_
  intro a b h hc
  apply h
  rw [← hg a, ← hg b]
  exact hc

theorem pairwise_keyNe_replace {l1 l2 : List Contact} {c c' : Contact}
    (hk : c'.email = c.email ∧ c'.client_id = c.client_id)
    (hp : (l1 ++ c :: l2).Pairwise keyNe) :
    (l1 ++ c' :: l2).Pairwise keyNe := by
  rw [List.pairwise_append] at hp ⊢
  obtain ⟨h1, h2, h12⟩ := hp
  rw [List.pairwise_cons] at h2 ⊢
  refine ⟨h1, ⟨?_, h2.2⟩, ?_⟩
  · intro x hx hc
    exact h2.1 x hx ⟨hk.1 ▸ hc.1, hk.2 ▸ hc.2⟩
  · intro a ha b hb
    rcases List.mem_cons.mp hb with rfl | hb
    · intro hc
      exact h12 a ha c (List.mem_cons_self c l2) ⟨hc.1.trans hk.1, hc.2.trans hk.2⟩
    · exact h12 a ha b (List.mem_cons_of_mem _ hb)

/-- Every field the invariants read is preserved by the hard-no
cascade's per-row update. -/
theorem suppressRow_fields (d : String) (x : Contact) :
    ((if x.company_domain = d then { x with email_suppressed := true }
      else x) : Contact).email = x.email ∧
    ((if x.company_domain = d then { x with email_suppressed := true }
      else x) : Contact).client_id = x.client_id ∧
    ((if x.company_domain = d then { x with email_suppressed := true }
      else x) : Contact).company_domain = x.company_domain ∧
    ((if x.company_domain = d then { x with email_suppressed := true }
      else x) : Contact).disposition_status = x.disposition_status := by
  split <;> exact ⟨rfl, rfl, rfl, rfl⟩

theorem suppress_company_inv {st : Store} {d : String} (hInv : Inv st) :
    Inv (StateMachine.suppress_company st d) := by
  obtain ⟨hC, hCo, hHas, hCnt⟩ := hInv
  refine ⟨?_, hCo, ?_, ?_⟩
  · exact pairwise_keyNe_map
      (fun x => ⟨(suppressRow_fields d x).1, (suppressRow_fields d x).2.1⟩) hC
  · intro x hx
    obtain ⟨y, hy, rfl⟩ := List.mem_map.mp hx
    obtain ⟨co, hco, hcod⟩ := hHas y hy
    exact ⟨co, hco, hcod.trans (suppressRow_fields d y).2.2.1.symm⟩
  · intro co hco
    have := hCnt co hco
    rw [this]
    unfold inSeqCount StateMachine.suppress_company
    exact (countP_map_eq fun x => by
      unfold inSeqP
      rw [(suppressRow_fields d x).2.2.1, (suppressRow_fields d x).2.2.2]).symm

/-- Preservation of the store invariant by a successful transition,
except through the one hole: a same-state `IN_SEQUENCE → IN_SEQUENCE`
call double-counts. -/
theorem transitionResult_inv {s : Settings} {st : Store} {now : Nat}
    {e cl : String} {c : Contact} {T : DispositionStatus}
    {reason : Option String} {tb : String} {cid : Option String}
    (hInv : Inv st)
    (h : lookupContact st.contacts e cl = some c)
    (hne : ¬ (c.disposition_status = .in_sequence ∧ T = .in_sequence)) :
    Inv (StateMachine.transitionResult s st now e cl c.disposition_status
      c.company_domain T reason tb cid) := by
  obtain ⟨hC, hCo, hHas, hCnt⟩ := hInv
  obtain ⟨hm, he, hcl⟩ := lookupContact_some h
  obtain ⟨l1, l2, hdec, h1⟩ := lookupContact_decomp h
  have hp' : (l1 ++ c :: l2).Pairwise keyNe := hdec ▸ hC
  have h2 : ∀ x ∈ l2, ¬ (x.email = e ∧ x.client_id = cl) := by
    intro x hx hmx
    exact (List.pairwise_cons.mp (List.pairwise_append.mp hp').2.1).1 x hx
      ⟨he.trans hmx.1.symm, hcl.trans hmx.2.symm⟩
  have hcf := StateMachine.applyContactUpdates_fields s now T c
  set c' := StateMachine.applyContactUpdates s now T c with hc'
  -- the contact table after the row update
  have hupd : updContacts e cl (StateMachine.applyContactUpdates s now T)
      st.contacts = l1 ++ c' :: l2 := by
    rw [hdec]
    exact updContacts_decomp _ ⟨he, hcl⟩ h1 h2
  -- the store before the optional hard-no cascade
  have hmid :
      Inv { st with
        contacts := l1 ++ c' :: l2,
        companies := updCompanies c.company_domain
          (StateMachine.companyDerive c.disposition_status T now) st.companies,
        history := ⟨e, cl, some c.disposition_status, T, reason, tb, cid, now⟩ ::
          st.history } := by
    refine ⟨?_, ?_, ?_, ?_⟩
    · exact pairwise_keyNe_replace ⟨hcf.1, hcf.2.1⟩ hp'
    · exact pairwise_domNe_map
        (fun x => by
          split
          · exact StateMachine.companyDerive_domain _ _ _ _
          · rfl) hCo
    · intro x hx
      have hx0 : ∃ y ∈ st.contacts, y.company_domain = x.company_domain := by
        rcases List.mem_append.mp hx with hx | hx
        · exact ⟨x, hdec ▸ List.mem_append_left _ hx, rfl⟩
        · rcases List.mem_cons.mp hx with rfl | hx
          · exact ⟨c, hm, hcf.2.2.1.symm⟩
          · exact ⟨x, hdec ▸ List.mem_append_right _ (List.mem_cons_of_mem _ hx),
              rfl⟩
      obtain ⟨y, hy, hyd⟩ := hx0
      obtain ⟨co, hco, hcod⟩ := hHas y hy
      refine ⟨if co.domain = c.company_domain then
          StateMachine.companyDerive c.disposition_status T now co else co,
        List.mem_map_of_mem _ hco, ?_⟩
      split
      · rw [StateMachine.companyDerive_domain, hcod, hyd]
      · rw [hcod, hyd]
    · intro co' hco'
      obtain ⟨co, hco, rfl⟩ := List.mem_map.mp hco'
      have hcnt := hCnt co hco
      unfold inSeqCount at hcnt ⊢
      rw [hdec] at hcnt
      simp only [List.countP_append, List.countP_cons] at hcnt ⊢
      by_cases hd : co.domain = c.company_domain
      · rw [if_pos hd]
        have hdom : (StateMachine.companyDerive c.disposition_status T now
            co).domain = co.domain :=
          StateMachine.companyDerive_domain _ _ _ _
        rw [hdom]
        rw [StateMachine.companyDerive_counter]
        have hpc : inSeqP co.domain c =
            decide (c.disposition_status = .in_sequence) := by
          unfold inSeqP
          rw [decide_eq_decide]
          constructor
          · exact fun hx => hx.2
          · exact fun hx => ⟨hd.symm, hx⟩
        have hpc' : inSeqP co.domain c' = decide (T = .in_sequence) := by
          unfold inSeqP
          rw [decide_eq_decide]
          constructor
          · exact fun hx => hcf.2.2.2 ▸ hx.2
          · exact fun hx => ⟨hcf.2.2.1.trans hd.symm, hcf.2.2.2.trans hx⟩
        rw [hpc] at hcnt
        rw [hpc']
        simp only [decide_eq_true_eq] at hcnt ⊢
        by_cases hT : T = .in_sequence
        · have hcs : ¬ c.disposition_status = .in_sequence :=
            fun hx => hne ⟨hx, hT⟩
          rw [if_pos hT, if_pos hT, if_neg hcs] at *
          omega
        · rw [if_neg hT, if_neg hT]
          by_cases hcs : c.disposition_status = .in_sequence
          · rw [if_pos hcs]
            rw [if_pos hcs] at hcnt
            omega
          · rw [if_neg hcs]
            rw [if_neg hcs] at hcnt
            omega
      · rw [if_neg hd]
        have hpc : inSeqP co.domain c = false :=
          decide_eq_false fun hx => hd hx.1.symm
        have hpc' : inSeqP co.domain c' = false :=
          decide_eq_false fun hx => hd (hcf.2.2.1 ▸ hx.1).symm
        rw [hpc] at hcnt
        rw [hpc']
        exact hcnt
  -- assemble the final store
  unfold StateMachine.transitionResult
  dsimp only [StateMachine.update_company_state_eq, Store.update_contact_fields,
    Store.update_company_fields]
  rw [hupd]
  by_cases hT : T = .replied_hard_no
  · rw [if_pos hT]
    exact suppress_company_inv hmid
  · rw [if_neg hT]
    exact hmid

/-- Any successful transition whose target is not `IN_SEQUENCE`
preserves the store invariant (this covers both sweeps, whose targets
are `RETOUCH_ELIGIBLE` and `STALE_DATA`). -/
theorem transition_ok_inv_of_target_ne {s : Settings} {st st' : Store}
    {now : Nat} {e cl : String} {T : DispositionStatus}
    {reason : Option String} {tb : String} {cid : Option String}
    (hInv : Inv st) (hT : T ≠ .in_sequence)
    (h : StateMachine.transition s st now e cl T reason tb cid = .ok st') :
    Inv st' := by
  obtain ⟨c, hl, _, rfl⟩ := StateMachine.transition_ok_elim h
  exact transitionResult_inv hInv hl (fun hx => hT hx.2)

/-- A successful transition of a contact that is not currently
`IN_SEQUENCE` preserves the store invariant. -/
theorem transition_ok_inv_of_current_ne {s : Settings} {st st' : Store}
    {now : Nat} {e cl : String} {c : Contact} {T : DispositionStatus}
    {reason : Option String} {tb : String} {cid : Option String}
    (hInv : Inv st) (hl : lookupContact st.contacts e cl = some c)
    (hc : c.disposition_status ≠ .in_sequence)
    (h : StateMachine.transition s st now e cl T reason tb cid = .ok st') :
    Inv st' := by
  obtain ⟨c2, hl2, _, rfl⟩ := StateMachine.transition_ok_elim h
  rw [hl] at hl2
  obtain rfl : c = c2 := by injection hl2
  exact transitionResult_inv hInv hl (fun hx => hc hx.1)

/-- Unless the target is the hard no (whose cascade touches the whole
domain), a transition only rewrites the transitioned contact's row. -/
theorem transitionResult_contacts_of_ne {s : Settings} {st : Store}
    {now : Nat} {e cl : String} {cur : DispositionStatus} {dom : String}
    {T : DispositionStatus} {reason : Option String} {tb : String}
    {cid : Option String} (hT : T ≠ .replied_hard_no) :
    (StateMachine.transitionResult s st now e cl cur dom T reason
        tb cid).contacts =
      updContacts e cl (StateMachine.applyContactUpdates s now T)
        st.contacts := by
  unfold StateMachine.transitionResult
  dsimp only [StateMachine.update_company_state_eq, Store.update_contact_fields,
    Store.update_company_fields]
  rw [if_neg hT]

theorem transition_ok_lookup_ne {s : Settings} {st st' : Store} {now : Nat}
    {e cl e2 cl2 : String} {T : DispositionStatus} {reason : Option String}
    {tb : String} {cid : Option String} (hT : T ≠ .replied_hard_no)
    (h : StateMachine.transition s st now e cl T reason tb cid = .ok st')
    (hne : ¬ (e2 = e ∧ cl2 = cl)) :
    lookupContact st'.contacts e2 cl2 = lookupContact st.contacts e2 cl2 := by
  obtain ⟨c, _, _, rfl⟩ := StateMachine.transition_ok_elim h
  rw [transitionResult_contacts_of_ne hT]
  exact lookupContact_updContacts_ne
    (fun x => ⟨(StateMachine.applyContactUpdates_fields s now T x).1,
               (StateMachine.applyContactUpdates_fields s now T x).2.1⟩) hne

/-! ### Invariant preservation by contact creation -/

theorem create_contact_inv {st : Store} {c : Contact} (hInv : Inv st)
    (habs : lookupContact st.contacts c.email c.client_id = none)
    (hfresh : c.disposition_status ≠ .in_sequence) :
    Inv (create_contact st c) := by
  obtain ⟨hC, hCo, hHas, hCnt⟩ := hInv
  have hnomatch := lookupContact_eq_none.mp habs
  -- the counter bump preserves domain and the in-sequence counter
  have hbump : ∀ x : Company,
      ((if x.domain = c.company_domain then
          { x with contacts_total := x.contacts_total + 1 } else x) :
        Company).domain = x.domain ∧
      ((if x.domain = c.company_domain then
          { x with contacts_total := x.contacts_total + 1 } else x) :
        Company).contacts_in_sequence = x.contacts_in_sequence := by
    intro x
    split <;> exact ⟨rfl, rfl⟩
  have hnewP : ∀ d, inSeqP d c = false := by
    intro d
    exact decide_eq_false fun hx => hfresh hx.2
  rcases hco : lookupCompany st.companies c.company_domain with _ | co0
  -- company absent: `_ensure_company` appends a default row
  · have hcc : create_contact st c = { st with
        contacts := st.contacts ++ [c],
        companies := updCompanies c.company_domain
          (fun co => { co with contacts_total := co.contacts_total + 1 })
          (st.companies ++ [{ domain := c.company_domain }]) } := by
      unfold create_contact ensure_company Store.update_company_fields
      rw [hco]
    have hnodom := lookupCompany_eq_none.mp hco
    have hnocontact : ∀ y ∈ st.contacts, y.company_domain ≠ c.company_domain := by
      intro y hy hyd
      obtain ⟨co, hcom, hcod⟩ := hHas y hy
      exact hnodom co hcom (hcod.trans hyd)
    rw [hcc]
    refine ⟨?_, ?_, ?_, ?_⟩
    · show List.Pairwise keyNe (st.contacts ++ [c])
      rw [List.pairwise_append]
      refine ⟨hC, List.pairwise_singleton _ _, ?_⟩
      intro a ha b hb
      rcases List.mem_singleton.mp hb with rfl
      exact hnomatch a ha
    · show List.Pairwise _ (updCompanies _ _ (st.companies ++ [_]))
      apply pairwise_domNe_map (fun x => (hbump x).1)
      rw [List.pairwise_append]
      refine ⟨hCo, List.pairwise_singleton _ _, ?_⟩
      intro a ha b hb
      rcases List.mem_singleton.mp hb with rfl
      exact hnodom a ha
    · intro x hx
      rcases List.mem_append.mp hx with hx | hx
      · obtain ⟨co, hcom, hcod⟩ := hHas x hx
        refine ⟨_, List.mem_map_of_mem _ (List.mem_append_left _ hcom), ?_⟩
        rw [(hbump co).1, hcod]
      · rcases List.mem_singleton.mp hx with rfl
        refine ⟨_, List.mem_map_of_mem _
          (List.mem_append_right _ (List.mem_singleton_self _)), ?_⟩
        rw [(hbump _).1]
    · intro co' hco'
      obtain ⟨co, hcom, rfl⟩ := List.mem_map.mp hco'
      unfold inSeqCount
      dsimp only
      rw [(hbump co).2, List.countP_append, (hbump co).1]
      rcases List.mem_append.mp hcom with hcom | hcom
      · have hthis := hCnt co hcom
        unfold inSeqCount at hthis
        rw [hthis, List.countP_singleton, hnewP co.domain]
        simp
      · rcases List.mem_singleton.mp hcom with rfl
        show (0:Nat) = List.countP (inSeqP c.company_domain) st.contacts +
          List.countP (inSeqP c.company_domain) [c]
        rw [List.countP_singleton, hnewP]
        have hz : st.contacts.countP (inSeqP c.company_domain) = 0 := by
          rw [List.countP_eq_zero]
          intro y hy
          unfold inSeqP
          simp only [decide_eq_true_eq]
          intro hx
          exact hnocontact y hy hx.1
        simp [hz]
  -- company present: `_ensure_company` is a no-op
  · have hcc : create_contact st c = { st with
        contacts := st.contacts ++ [c],
        companies := updCompanies c.company_domain
          (fun co => { co with contacts_total := co.contacts_total + 1 })
          st.companies } := by
      unfold create_contact ensure_company Store.update_company_fields
      rw [hco]
    rw [hcc]
    refine ⟨?_, ?_, ?_, ?_⟩
    · show List.Pairwise keyNe (st.contacts ++ [c])
      rw [List.pairwise_append]
      refine ⟨hC, List.pairwise_singleton _ _, ?_⟩
      intro a ha b hb
      rcases List.mem_singleton.mp hb with rfl
      exact hnomatch a ha
    · exact pairwise_domNe_map (fun x => (hbump x).1) hCo
    · intro x hx
      rcases List.mem_append.mp hx with hx | hx
      · obtain ⟨co, hcom, hcod⟩ := hHas x hx
        refine ⟨_, List.mem_map_of_mem _ hcom, ?_⟩
        rw [(hbump co).1, hcod]
      · rcases List.mem_singleton.mp hx with rfl
        obtain ⟨hcom, hcod⟩ := lookupCompany_some hco
        refine ⟨_, List.mem_map_of_mem _ hcom, ?_⟩
        rw [(hbump co0).1, hcod]
    · intro co' hco'
      obtain ⟨co, hcom, rfl⟩ := List.mem_map.mp hco'
      unfold inSeqCount
      dsimp only
      rw [(hbump co).2, List.countP_append, (hbump co).1,
        List.countP_singleton, hnewP]
      have hthis := hCnt co hcom
      unfold inSeqCount at hthis
      rw [hthis]
      simp

/-! ### Maintenance sweeps -/

theorem sweepLoop_inv {s : Settings} {now : Nat} {target : DispositionStatus}
    {reason : Option String} (hT : target ≠ .in_sequence) :
    ∀ {sel : List Contact} {st st' : Store} {k n : Nat},
      Inv st →
      StateMachine.sweepLoop s now target reason st k sel = .ok (n, st') →
      Inv st' := by
  intro sel
  induction sel with
  | nil =>
    intro st st' k n hInv h
    simp only [StateMachine.sweepLoop] at h
    obtain ⟨-, rfl⟩ : k = n ∧ st = st' := by
      have := Except.ok.inj h
      exact ⟨congrArg Prod.fst this, congrArg Prod.snd this⟩
    exact hInv
  | cons c0 rest ih =>
    intro st st' k n hInv h
    simp only [StateMachine.sweepLoop] at h
    rcases htr : StateMachine.transition s st now c0.email c0.client_id target
        reason "system" none with err | st1
    · rw [htr] at h
      rcases err with ⟨a, b⟩ | ⟨ref⟩
      · dsimp only at h
        cases h
      · dsimp only at h
        exact ih hInv h
    · rw [htr] at h
      dsimp only at h
      exact ih (transition_ok_inv_of_target_ne hInv hT htr) h

theorem process_expired_cooldowns_inv {s : Settings} {st st' : Store}
    {now : Nat} {n : Nat} (hInv : Inv st)
    (h : StateMachine.process_expired_cooldowns s st now = .ok (n, st')) :
    Inv st' :=
  sweepLoop_inv (by decide) hInv h

theorem process_stale_data_inv {s : Settings} {st st' : Store} {now : Nat}
    {months : Option Nat} {n : Nat} (hInv : Inv st)
    (h : StateMachine.process_stale_data s st now months = .ok (n, st')) :
    Inv st' :=
  sweepLoop_inv (by decide) hInv h

/-- Membership in the expired-cooldown query result: a stored contact
whose disposition is one of the four cooldown states. -/
theorem mem_get_expired_cooldowns {st : Store} {now : Nat} {x : Contact}
    (hx : x ∈ get_expired_cooldowns st now) :
    x ∈ st.contacts ∧ x.disposition_status ∈
      [DispositionStatus.completed_no_response, .replied_neutral,
       .replied_negative, .lost_closed] := by
  unfold get_expired_cooldowns at hx
  have h := List.mem_filter.mp hx
  refine ⟨h.1, ?_⟩
  have := (Bool.and_eq_true _ _).mp h.2
  exact of_decide_eq_true this.1

/-- From each of the four cooldown states, `RETOUCH_ELIGIBLE` is a
legal transition target. -/
theorem retouch_legal_from_cooldown_state {d : DispositionStatus}
    (hd : d ∈ [DispositionStatus.completed_no_response, .replied_neutral,
      .replied_negative, .lost_closed]) :
    StateMachine.validate_transition d .retouch_eligible = none := by
  simp only [List.mem_cons, List.mem_singleton, List.not_mem_nil,
    or_false] at hd
  rcases hd with h | h | h | h <;> rw [h] <;> decide

/-- Running the sweep loop over pairwise-distinct contacts whose stored
rows match the snapshot and whose dispositions are cooldown states
succeeds on every contact: no `TransitionError` is ever swallowed. -/
theorem sweepLoop_exact {s : Settings} {now : Nat} {reason : Option String} :
    ∀ {sel : List Contact} {st : Store} {k : Nat},
      List.Pairwise keyNe sel →
      (∀ x ∈ sel, lookupContact st.contacts x.email x.client_id = some x) →
      (∀ x ∈ sel, x.disposition_status ∈
        [DispositionStatus.completed_no_response, .replied_neutral,
         .replied_negative, .lost_closed]) →
      ∃ st', StateMachine.sweepLoop s now .retouch_eligible reason st k sel =
        .ok (k + sel.length, st') := by
  intro sel
  induction sel with
  | nil =>
    intro st k _ _ _
    exact ⟨st, by simp [StateMachine.sweepLoop]⟩
  | cons c0 rest ih =>
    intro st k hp hmem hstat
    have hl := hmem c0 (List.mem_cons_self _ _)
    have hv := retouch_legal_from_cooldown_state
      (hstat c0 (List.mem_cons_self _ _))
    have htr := @StateMachine.transition_eq_ok s st now _ _ _
      DispositionStatus.retouch_eligible reason "system" none hl hv
    have hmem' : ∀ x ∈ rest,
        lookupContact (StateMachine.transitionResult s st now c0.email
          c0.client_id c0.disposition_status c0.company_domain
          .retouch_eligible reason "system" none).contacts
          x.email x.client_id = some x := by
      intro x hx
      rw [transitionResult_contacts_of_ne (by decide)]
      rw [lookupContact_updContacts_ne
        (fun y => ⟨(StateMachine.applyContactUpdates_fields s now _ y).1,
                   (StateMachine.applyContactUpdates_fields s now _ y).2.1⟩)
        (keyNe_symm ((List.pairwise_cons.mp hp).1 x hx))]
      exact hmem x (List.mem_cons_of_mem _ hx)
    obtain ⟨st', hst'⟩ := ih (List.pairwise_cons.mp hp).2 hmem'
      (fun x hx => hstat x (List.mem_cons_of_mem _ hx)) (k := k + 1)
    refine ⟨st', ?_⟩
    simp only [StateMachine.sweepLoop]
    rw [htr]
    have hlen : k + (c0 :: rest).length = (k + 1) + rest.length := by
      rw [List.length_cons]
      omega
    rw [hlen]
    exact hst'

/-! ### Campaign fill: per-company cap and selection lemmas -/

namespace CampaignFillEngine

/-- The cap pass is a greedy single pass preserving order: its output is
a subsequence of its input. -/
theorem apply_company_cap_sublist (l : List Contact) (cap : Nat)
    (m : String → Nat) : (apply_company_cap l cap m).Sublist l := by
  induction l generalizing m with
  | nil => simp [apply_company_cap]
  | cons c rest ih =>
    rw [apply_company_cap]
    split
    · exact (ih _).cons₂ c
    · exact (ih m).cons c

theorem mem_apply_company_cap {l : List Contact} {cap : Nat}
    {m : String → Nat} {x : Contact} (hx : x ∈ apply_company_cap l cap m) :
    x ∈ l :=
  (apply_company_cap_sublist l cap m).mem hx

/-- Core property of the greedy cap: starting from running counts `m`,
the output contains at most `cap − m d` contacts of any domain `d`. -/
theorem apply_company_cap_count (l : List Contact) (cap : Nat)
    (m : String → Nat) (d : String) :
    count_by_company (apply_company_cap l cap m) d ≤ cap - m d := by
  induction l generalizing m with
  | nil => simp [apply_company_cap, count_by_company]
  | cons c rest ih =>
    rw [apply_company_cap]
    split
    · rename_i hlt
      unfold count_by_company at ih ⊢
      rw [List.countP_cons]
      by_cases hd : c.company_domain = d
      · have hih := ih (fun d2 => if d2 = c.company_domain then m d2 + 1
          else m d2)
        rw [if_pos hd.symm] at hih
        rw [if_pos (decide_eq_true hd)]
        rw [hd] at hlt
        omega
      · have hih := ih (fun d2 => if d2 = c.company_domain then m d2 + 1
          else m d2)
        rw [if_neg (fun hx : d = c.company_domain => hd hx.symm)] at hih
        rw [if_neg (by
          simp only [decide_eq_true_eq]
          exact hd)]
        omega
    · exact ih m

theorem count_by_company_le_of_sublist {l1 l2 : List Contact} (d : String)
    (h : l1.Sublist l2) : count_by_company l1 d ≤ count_by_company l2 d :=
  h.countP_le _

/-- Counting bound on the take-retouch-backfill composition: whatever
the three cut points, the output counts at most the two capped pools. -/
theorem countP_compose_le (p : Contact → Bool) (fs rs : List Contact)
    (n1 n2 n3 : Nat) :
    ((fs.take n1 ++ rs.take n2) ++ (fs.drop n1).take n3).countP p ≤
      fs.countP p + rs.countP p := by
  simp only [List.countP_append]
  have h1 := (List.take_sublist n2 rs).countP_le p
  have h2 := (List.take_sublist n3 (fs.drop n1)).countP_le p
  have h3 : (fs.take n1).countP p + (fs.drop n1).countP p = fs.countP p := by
    rw [← List.countP_append, List.take_append_drop]
  omega

/-- The composed fill selection takes at most `cap` contacts per company
domain, fresh and retouch together (claim 7 of spec §8). -/
theorem fillSelect_company_cap (volume : Nat) (ratio : ℚ) (cap : Nat)
    (fresh_contacts retouch_contacts : List Contact) (d : String) :
    count_by_company
      (fillSelect volume ratio cap fresh_contacts retouch_contacts) d ≤ cap := by
  simp only [fillSelect]
  unfold count_by_company
  refine le_trans (countP_compose_le _ _ _ _ _ _) ?_
  have hfs := apply_company_cap_count fresh_contacts cap (fun _ => 0) d
  have hrs := apply_company_cap_count retouch_contacts cap
    (count_by_company (apply_company_cap fresh_contacts cap (fun _ => 0))) d
  unfold count_by_company at hfs hrs
  omega

/-- When the capped fresh pool holds at least `F` contacts, the number
of retouch contacts in the composed selection is bounded by
`R = volume − F`.  (Without that proviso the composition tops the
selection up with retouch beyond `R`; see the C4 counterexample.) -/
theorem fillSelect_retouch_le {volume : Nat} {ratio : ℚ} {cap : Nat}
    {fresh_contacts retouch_contacts : List Contact}
    (hf : ∀ c ∈ fresh_contacts, c.disposition_status = .fresh)
    (hF : fresh_target_of volume ratio ≤
      (apply_company_cap fresh_contacts cap (fun _ => 0)).length) :
    (fillSelect volume ratio cap fresh_contacts
        retouch_contacts).countP
      (fun c => decide (c.disposition_status = .retouch_eligible)) ≤
      volume - fresh_target_of volume ratio := by
  simp only [fillSelect]
  simp only [List.countP_append]
  have hfresh0 : ∀ (n : Nat),
      ((apply_company_cap fresh_contacts cap (fun _ => 0)).take n |>.countP
        (fun c => decide (c.disposition_status = .retouch_eligible))) = 0 := by
    intro n
    rw [List.countP_eq_zero]
    intro x hx
    have hx2 := mem_apply_company_cap ((List.take_sublist _ _).mem hx)
    simp [hf x hx2]
  have hdrop0 : ∀ (n k : Nat),
      (((apply_company_cap fresh_contacts cap (fun _ => 0)).drop n).take k
        |>.countP
        (fun c => decide (c.disposition_status = .retouch_eligible))) = 0 := by
    intro n k
    rw [List.countP_eq_zero]
    intro x hx
    have hx2 := mem_apply_company_cap
      (((List.take_sublist _ _).trans (List.drop_sublist _ _)).mem hx)
    simp [hf x hx2]
  rw [hfresh0, hdrop0]
  have hlenA : ((apply_company_cap fresh_contacts cap (fun _ => 0)).take
      (fresh_target_of volume ratio)).length = fresh_target_of volume ratio := by
    rw [List.length_take]
    omega
  rw [hlenA]
  have hB := List.countP_le_length
    (l := (apply_company_cap retouch_contacts cap
      (count_by_company (apply_company_cap fresh_contacts cap (fun _ => 0)))).take
        (volume - fresh_target_of volume ratio))
    (fun c => decide (c.disposition_status = .retouch_eligible))
  have hBlen : ((apply_company_cap retouch_contacts cap
      (count_by_company (apply_company_cap fresh_contacts cap
        (fun _ => 0)))).take (volume - fresh_target_of volume ratio)).length ≤
      volume - fresh_target_of volume ratio := by
    rw [List.length_take]
    omega
  omega

end CampaignFillEngine

/-! ### Invariant preservation along the assignment path -/

/-- The invariant only reads the contacts and companies tables. -/
theorem Inv_congr {st st' : Store} (hc : st'.contacts = st.contacts)
    (hco : st'.companies = st.companies) (hInv : Inv st) : Inv st' := by
  unfold Inv ContactsOk CompaniesOk HasCompany CounterConsistent inSeqCount
  rw [hc, hco]
  exact hInv

theorem updContacts_inv_of_pres {st : Store} {e cl : String}
    {f : Contact → Contact} (hInv : Inv st)
    (hf : ∀ x, (f x).email = x.email ∧ (f x).client_id = x.client_id ∧
      (f x).company_domain = x.company_domain ∧
      (f x).disposition_status = x.disposition_status) :
    Inv (st.update_contact_fields e cl f) := by
  obtain ⟨hC, hCo, hHas, hCnt⟩ := hInv
  have hg : ∀ x : Contact,
      ((if x.email = e ∧ x.client_id = cl then f x else x)).email = x.email ∧
      ((if x.email = e ∧ x.client_id = cl then f x else x)).client_id =
        x.client_id ∧
      ((if x.email = e ∧ x.client_id = cl then f x else x)).company_domain =
        x.company_domain ∧
      ((if x.email = e ∧ x.client_id = cl then f x else x)).disposition_status =
        x.disposition_status := by
    intro x
    split
    · exact hf x
    · exact ⟨rfl, rfl, rfl, rfl⟩
  refine ⟨?_, hCo, ?_, ?_⟩
  · exact pairwise_keyNe_map (fun x => ⟨(hg x).1, (hg x).2.1⟩) hC
  · intro x hx
    obtain ⟨y, hy, rfl⟩ := List.mem_map.mp hx
    obtain ⟨co, hco, hcod⟩ := hHas y hy
    exact ⟨co, hco, hcod.trans (hg y).2.2.1.symm⟩
  · intro co hco
    have := hCnt co hco
    rw [this]
    unfold inSeqCount
    exact (countP_map_eq fun x => by
      unfold inSeqP
      rw [(hg x).2.2.1, (hg x).2.2.2]).symm

theorem updCompanies_inv_of_pres {st : Store} {d : String}
    {f : Company → Company} (hInv : Inv st)
    (hf : ∀ x, (f x).domain = x.domain ∧
      (f x).contacts_in_sequence = x.contacts_in_sequence) :
    Inv (st.update_company_fields d f) := by
  obtain ⟨hC, hCo, hHas, hCnt⟩ := hInv
  have hg : ∀ x : Company,
      ((if x.domain = d then f x else x)).domain = x.domain ∧
      ((if x.domain = d then f x else x)).contacts_in_sequence =
        x.contacts_in_sequence := by
    intro x
    split
    · exact hf x
    · exact ⟨rfl, rfl⟩
  refine ⟨hC, ?_, ?_, ?_⟩
  · exact pairwise_domNe_map (fun x => (hg x).1) hCo
  · intro x hx
    obtain ⟨co, hco, hcod⟩ := hHas x hx
    refine ⟨_, List.mem_map_of_mem _ hco, ?_⟩
    rw [(hg co).1, hcod]
  · intro co' hco'
    obtain ⟨co, hco, rfl⟩ := List.mem_map.mp hco'
    rw [(hg co).2, (hg co).1]
    exact hCnt co hco

theorem setLastContacted_fields (channel : Channel) (now : Nat) (x : Contact) :
    (setLastContacted channel now x).email = x.email ∧
    (setLastContacted channel now x).client_id = x.client_id ∧
    (setLastContacted channel now x).company_domain = x.company_domain ∧
    (setLastContacted channel now x).disposition_status =
      x.disposition_status := by
  cases channel <;> exact ⟨rfl, rfl, rfl, rfl⟩

/-! ### Eligibility query lemmas -/

theorem mem_query_eligible {st : Store} {now : Nat} {client_id : String}
    {channel : Channel} {kws : List String} {limit : Nat}
    {statuses : List DispositionStatus} {x : Contact}
    (hx : x ∈ query_eligible_contacts st now client_id channel kws limit
      statuses) :
    x ∈ st.contacts ∧ x.disposition_status ∈ statuses := by
  unfold query_eligible_contacts at hx
  have hx1 := (List.take_sublist _ _).mem hx
  have hx2 := (List.mem_insertionSort query_le).mp hx1
  have hx3 := List.mem_filter.mp hx2
  refine ⟨hx3.1, ?_⟩
  have hp := hx3.2
  unfold eligiblePred at hp
  rcases hco : lookupCompany st.companies x.company_domain with _ | co
  · rw [hco] at hp
    cases hp
  · rw [hco] at hp
    simp only [Bool.and_eq_true, decide_eq_true_eq] at hp
    exact hp.1.1.1.1.1.1.1.2

theorem query_eligible_pairwise {st : Store} {now : Nat} {client_id : String}
    {channel : Channel} {kws : List String} {limit : Nat}
    {statuses : List DispositionStatus} (hC : ContactsOk st) :
    (query_eligible_contacts st now client_id channel kws limit
      statuses).Pairwise keyNe := by
  unfold query_eligible_contacts
  refine List.Pairwise.sublist (List.take_sublist _ _) ?_
  refine ((List.perm_insertionSort query_le _).pairwise_iff
    (fun h => keyNe_symm h)).mpr ?_
  exact List.Pairwise.filter _ hC

/-- One assignment unit succeeds on a stored fresh/retouch contact,
preserves the invariant, and leaves every other contact row alone. -/
theorem assign_contact_props {s : Settings} {st : Store} {now : Nat}
    {c : Contact} {req : CampaignFillRequest} (hInv : Inv st)
    (hl : lookupContact st.contacts c.email c.client_id = some c)
    (hstat : c.disposition_status = .fresh ∨
      c.disposition_status = .retouch_eligible) :
    ∃ st2, CampaignFillEngine.assign_contact s st now c req = .ok st2 ∧
      Inv st2 ∧
      ∀ e2 cl2, ¬ (e2 = c.email ∧ cl2 = c.client_id) →
        lookupContact st2.contacts e2 cl2 =
          lookupContact st.contacts e2 cl2 := by
  have hv : StateMachine.validate_transition c.disposition_status
      .in_sequence = none := by
    rcases hstat with h | h <;> rw [h] <;> decide
  have hne : ¬ (c.disposition_status = .in_sequence ∧
      (DispositionStatus.in_sequence : DispositionStatus) = .in_sequence) := by
    intro hx
    rcases hstat with h | h <;> rw [h] at hx <;> exact absurd hx.1 (by decide)
  have htr := @StateMachine.transition_eq_ok s st now _ _ _
    DispositionStatus.in_sequence
    (some ("assigned_to_campaign:" ++ req.campaign_id)) "campaign_fill"
    (some req.campaign_id) hl hv
  set stR := StateMachine.transitionResult s st now c.email c.client_id
    c.disposition_status c.company_domain .in_sequence
    (some ("assigned_to_campaign:" ++ req.campaign_id)) "campaign_fill"
    (some req.campaign_id) with hstR
  have hInvR : Inv stR := transitionResult_inv hInv hl hne
  have hlkR : ∀ e2 cl2, ¬ (e2 = c.email ∧ cl2 = c.client_id) →
      lookupContact stR.contacts e2 cl2 = lookupContact st.contacts e2 cl2 := by
    intro e2 cl2 h2
    rw [hstR, transitionResult_contacts_of_ne (by decide)]
    exact lookupContact_updContacts_ne
      (fun y => ⟨(StateMachine.applyContactUpdates_fields s now _ y).1,
                 (StateMachine.applyContactUpdates_fields s now _ y).2.1⟩) h2
  have hbump : ∀ x : Contact,
      (setLastContacted req.channel now
        { x with sequence_count := c.sequence_count + 1 }).email = x.email ∧
      (setLastContacted req.channel now
        { x with sequence_count := c.sequence_count + 1 }).client_id =
        x.client_id ∧
      (setLastContacted req.channel now
        { x with sequence_count := c.sequence_count + 1 }).company_domain =
        x.company_domain ∧
      (setLastContacted req.channel now
        { x with sequence_count := c.sequence_count + 1 }).disposition_status =
        x.disposition_status := by
    intro x
    cases hch : req.channel <;> exact ⟨rfl, rfl, rfl, rfl⟩
  set st2 := stR.update_contact_fields c.email c.client_id fun r =>
    setLastContacted req.channel now
      { r with sequence_count := c.sequence_count + 1 } with hst2
  have hInv2 : Inv st2 := updContacts_inv_of_pres hInvR hbump
  have hlk2 : ∀ e2 cl2, ¬ (e2 = c.email ∧ cl2 = c.client_id) →
      lookupContact st2.contacts e2 cl2 = lookupContact st.contacts e2 cl2 := by
    intro e2 cl2 h2
    rw [hst2]
    show lookupContact (updContacts _ _ _ stR.contacts) e2 cl2 = _
    rw [lookupContact_updContacts_ne
      (fun y => ⟨(hbump y).1, (hbump y).2.1⟩) h2]
    exact hlkR e2 cl2 h2
  unfold CampaignFillEngine.assign_contact
  rw [htr]
  dsimp only [Store.update_contact_fields, Store.update_company_fields]
  rcases hcoL : lookupCompany stR.companies c.company_domain with _ | co
  · exact ⟨_, rfl, Inv_congr rfl rfl hInv2,
      fun e2 cl2 h2 => hlk2 e2 cl2 h2⟩
  · by_cases hown : co.client_owner_id = none
    · dsimp only
      rw [if_pos hown]
      refine ⟨_, rfl, ?_, ?_⟩
      · refine Inv_congr rfl rfl ?_
        refine updCompanies_inv_of_pres (Inv_congr rfl rfl hInv2) ?_
        intro x
        exact ⟨rfl, rfl⟩
      · intro e2 cl2 h2
        exact hlk2 e2 cl2 h2
    · dsimp only
      rw [if_neg hown]
      exact ⟨_, rfl, Inv_congr rfl rfl hInv2,
        fun e2 cl2 h2 => hlk2 e2 cl2 h2⟩

/-- The fill assignment loop: over pairwise-distinct stored contacts in
fresh or retouch state it never fails, and it preserves the
invariant. -/
theorem assignLoop_props {s : Settings} {now : Nat}
    {req : CampaignFillRequest} :
    ∀ {sel : List Contact} {st : Store}, Inv st →
      (∀ x ∈ sel, lookupContact st.contacts x.email x.client_id = some x) →
      (∀ x ∈ sel, x.disposition_status = .fresh ∨
        x.disposition_status = .retouch_eligible) →
      List.Pairwise keyNe sel →
      ∃ st', CampaignFillEngine.assignLoop s now req st sel = .ok st' ∧
        Inv st' := by
  intro sel
  induction sel with
  | nil =>
    intro st hInv _ _ _
    exact ⟨st, rfl, hInv⟩
  | cons c rest ih =>
    intro st hInv hmem hstat hp
    obtain ⟨st2, hok, hInv2, hlk⟩ := assign_contact_props hInv
      (hmem c (List.mem_cons_self _ _)) (hstat c (List.mem_cons_self _ _))
    have hmem2 : ∀ x ∈ rest,
        lookupContact st2.contacts x.email x.client_id = some x := by
      intro x hx
      rw [hlk x.email x.client_id
        (keyNe_symm ((List.pairwise_cons.mp hp).1 x hx))]
      exact hmem x (List.mem_cons_of_mem _ hx)
    obtain ⟨st', hloop, hInv'⟩ := ih hInv2 hmem2
      (fun x hx => hstat x (List.mem_cons_of_mem _ hx))
      (List.pairwise_cons.mp hp).2
    refine ⟨st', ?_, hInv'⟩
    simp only [CampaignFillEngine.assignLoop]
    rw [hok]
    exact hloop

/-! ### Properties of the composed fill selection as used by `fill` -/

theorem mem_fillSelect {volume : Nat} {ratio : ℚ} {cap : Nat}
    {fresh_contacts retouch_contacts : List Contact} {x : Contact}
    (hx : x ∈ CampaignFillEngine.fillSelect volume ratio cap fresh_contacts
      retouch_contacts) :
    x ∈ fresh_contacts ∨ x ∈ retouch_contacts := by
  simp only [CampaignFillEngine.fillSelect] at hx
  rcases List.mem_append.mp hx with hx | hx
  · rcases List.mem_append.mp hx with hx | hx
    · exact Or.inl (CampaignFillEngine.mem_apply_company_cap
        ((List.take_sublist _ _).mem hx))
    · exact Or.inr (CampaignFillEngine.mem_apply_company_cap
        ((List.take_sublist _ _).mem hx))
  · exact Or.inl (CampaignFillEngine.mem_apply_company_cap
      (((List.take_sublist _ _).trans (List.drop_sublist _ _)).mem hx))

/-- The fill selection over the two eligibility query results is
pairwise key-distinct (the queries return sublists of a key-unique
table, and the fresh and retouch pools cannot share a row). -/
theorem fillSelect_pairwise {st : Store} {now : Nat} {client_id : String}
    {channel : Channel} {kws : List String} {lim1 lim2 volume : Nat}
    {ratio : ℚ} {cap : Nat} (hC : ContactsOk st) :
    (CampaignFillEngine.fillSelect volume ratio cap
      (query_eligible_contacts st now client_id channel kws lim1 [.fresh])
      (query_eligible_contacts st now client_id channel kws lim2
        [.retouch_eligible])).Pairwise keyNe := by
  set freshQ := query_eligible_contacts st now client_id channel kws lim1
    [.fresh] with hfq
  set retouchQ := query_eligible_contacts st now client_id channel kws lim2
    [.retouch_eligible] with hrq
  set fs := CampaignFillEngine.apply_company_cap freshQ cap (fun _ => 0)
    with hfs
  set rs := CampaignFillEngine.apply_company_cap retouchQ cap
    (CampaignFillEngine.count_by_company fs) with hrs
  have hfsP : fs.Pairwise keyNe :=
    List.Pairwise.sublist (CampaignFillEngine.apply_company_cap_sublist _ _ _)
      (query_eligible_pairwise hC)
  have hrsP : rs.Pairwise keyNe :=
    List.Pairwise.sublist (CampaignFillEngine.apply_company_cap_sublist _ _ _)
      (query_eligible_pairwise hC)
  have hcross : ∀ a ∈ fs, ∀ b ∈ rs, keyNe a b := by
    intro a ha b hb hcontra
    have ha2 := mem_query_eligible
      (CampaignFillEngine.mem_apply_company_cap ha)
    have hb2 := mem_query_eligible
      (CampaignFillEngine.mem_apply_company_cap hb)
    have : a = b := contact_key_unique hC ha2.1 hb2.1 hcontra.1 hcontra.2
    rw [this] at ha2
    have hsa := List.mem_singleton.mp ha2.2
    have hsb := List.mem_singleton.mp hb2.2
    rw [hsa] at hsb
    cases hsb
  have hACfull : (fs.take (CampaignFillEngine.fresh_target_of volume ratio) ++
      (fs.drop (CampaignFillEngine.fresh_target_of volume ratio)).take
        (volume - ((fs.take (CampaignFillEngine.fresh_target_of volume ratio) ++
          rs.take (volume - (fs.take
            (CampaignFillEngine.fresh_target_of volume ratio)).length)).length)))
      |>.Pairwise keyNe := by
    refine List.Pairwise.sublist ?_ hfsP
    have h1 : (fs.take (CampaignFillEngine.fresh_target_of volume ratio) ++
        (fs.drop (CampaignFillEngine.fresh_target_of volume ratio)).take
          (volume - ((fs.take (CampaignFillEngine.fresh_target_of volume
            ratio) ++ rs.take (volume - (fs.take
              (CampaignFillEngine.fresh_target_of volume
                ratio)).length)).length))).Sublist
        (fs.take (CampaignFillEngine.fresh_target_of volume ratio) ++
          fs.drop (CampaignFillEngine.fresh_target_of volume ratio)) :=
      List.Sublist.append (List.Sublist.refl _) (List.take_sublist _ _)
    rw [List.take_append_drop] at h1
    exact h1
  simp only [CampaignFillEngine.fillSelect]
  rw [List.pairwise_append]
  rw [List.pairwise_append]
  obtain ⟨hA, hCC, hAC⟩ := List.pairwise_append.mp hACfull
  refine ⟨⟨hA, List.Pairwise.sublist (List.take_sublist _ _) hrsP, ?_⟩,
    hCC, ?_⟩
  · intro a ha b hb
    exact hcross a ((List.take_sublist _ _).mem ha)
      b ((List.take_sublist _ _).mem hb)
  · intro a ha b hb
    rcases List.mem_append.mp ha with ha | ha
    · exact hAC a ha b hb
    · exact keyNe_symm (hcross b
        (((List.take_sublist _ _).trans (List.drop_sublist _ _)).mem hb)
        a ((List.take_sublist _ _).mem ha))

/-- The fresh and retouch query results used by `fill`, spelled out. -/
def fillFreshQuery (s : Settings) (st : Store) (now : Nat)
    (req : CampaignFillRequest) : List Contact :=
  query_eligible_contacts st now req.client_id req.channel req.title_keywords
    (CampaignFillEngine.fresh_target_of req.volume
      (CampaignFillEngine.effective_ratio s req) * 2) [.fresh]

def fillRetouchQuery (s : Settings) (st : Store) (now : Nat)
    (req : CampaignFillRequest) : List Contact :=
  query_eligible_contacts st now req.client_id req.channel req.title_keywords
    ((req.volume - CampaignFillEngine.fresh_target_of req.volume
      (CampaignFillEngine.effective_ratio s req)) * 2) [.retouch_eligible]

/-- The selection `fill` hands to its assignment loop. -/
def fillSelection (s : Settings) (st : Store) (now : Nat)
    (req : CampaignFillRequest) : List Contact :=
  CampaignFillEngine.fillSelect req.volume
    (CampaignFillEngine.effective_ratio s req)
    (CampaignFillEngine.effective_max_per_company s req)
    (fillFreshQuery s st now req) (fillRetouchQuery s st now req)

theorem fillSelection_mem_lookup {s : Settings} {st : Store} {now : Nat}
    {req : CampaignFillRequest} (hC : ContactsOk st) :
    ∀ x ∈ fillSelection s st now req,
      lookupContact st.contacts x.email x.client_id = some x := by
  intro x hx
  rcases mem_fillSelect hx with hq | hq
  · exact lookupContact_of_mem hC (mem_query_eligible hq).1
  · exact lookupContact_of_mem hC (mem_query_eligible hq).1

theorem fillSelection_status {s : Settings} {st : Store} {now : Nat}
    {req : CampaignFillRequest} :
    ∀ x ∈ fillSelection s st now req,
      x.disposition_status = .fresh ∨
      x.disposition_status = .retouch_eligible := by
  intro x hx
  rcases mem_fillSelect hx with hq | hq
  · exact Or.inl (List.mem_singleton.mp (mem_query_eligible hq).2)
  · exact Or.inr (List.mem_singleton.mp (mem_query_eligible hq).2)

/-- Under the invariant, `fill` never raises: the assignment loop's
transitions are all legal fresh/retouch → `IN_SEQUENCE` moves. -/
theorem fill_props {s : Settings} {st : Store} {now : Nat}
    {req : CampaignFillRequest} (hInv : Inv st) :
    ∃ st1 res, CampaignFillEngine.fill s st now req = .ok (st1, res) ∧
      Inv st1 := by
  have hp : (fillSelection s st now req).Pairwise keyNe := by
    unfold fillSelection fillFreshQuery fillRetouchQuery
    exact fillSelect_pairwise hInv.1
  obtain ⟨st', hloop, hInv'⟩ := @assignLoop_props s now req
    (fillSelection s st now req) st hInv
    (@fillSelection_mem_lookup s st now req hInv.1)
    (@fillSelection_status s st now req) hp
  unfold fillSelection fillFreshQuery fillRetouchQuery at hloop
  rcases hfill : CampaignFillEngine.fill s st now req with err | p
  · exfalso
    simp only [CampaignFillEngine.fill] at hfill
    rw [hloop] at hfill
    cases hfill
  · obtain ⟨st1, res⟩ := p
    refine ⟨st1, res, rfl, ?_⟩
    simp only [CampaignFillEngine.fill] at hfill
    rw [hloop] at hfill
    dsimp only at hfill
    have h1 : st' = st1 := congrArg Prod.fst (Except.ok.inj hfill)
    rw [← h1]
    exact hInv'

/-- `fill` is deterministic, so a successful run inherits the
invariant. -/
theorem fill_ok_inv {s : Settings} {st st1 : Store} {now : Nat}
    {req : CampaignFillRequest} {res : CampaignFillResult} (hInv : Inv st)
    (h : CampaignFillEngine.fill s st now req = .ok (st1, res)) :
    Inv st1 := by
  obtain ⟨st2, res2, h2, hInv2⟩ := @fill_props s st now req hInv
  rw [h] at h2
  have h1 : st1 = st2 := congrArg Prod.fst (Except.ok.inj h2)
  rw [h1]
  exact hInv2

/-- The contact list a successful `fill` returns is exactly the composed
capped selection. -/
theorem fill_ok_contacts {s : Settings} {st st1 : Store} {now : Nat}
    {req : CampaignFillRequest} {res : CampaignFillResult}
    (h : CampaignFillEngine.fill s st now req = .ok (st1, res)) :
    res.contacts = fillSelection s st now req := by
  simp only [CampaignFillEngine.fill] at h
  rcases hloop : CampaignFillEngine.assignLoop s now req st
      (fillSelection s st now req) with err | st2 <;>
    unfold fillSelection fillFreshQuery fillRetouchQuery at hloop <;>
    rw [hloop] at h <;> dsimp only at h
  · cases h
  · have hres : res = _ := (congrArg Prod.snd (Except.ok.inj h)).symm
    rw [hres]
    unfold fillSelection fillFreshQuery fillRetouchQuery
    rfl

/-! ### The public operations as a step relation -/

/-- One public operation of the control plane: contact creation (via the
importer or write-back), a state-machine transition, a maintenance
sweep, or a campaign fill. -/
inductive Step (s : Settings) : Store → Store → Prop where
  | create (st : Store) (email client_id domain : String)
      (title : Option String) (enriched : Option Nat)
      (habs : lookupContact st.contacts email client_id = none) :
      Step s st (create_contact st
        (mkImportContact email client_id domain title enriched))
  | transition (st st' : Store) (now : Nat) (email client_id : String)
      (T : DispositionStatus) (reason : Option String) (tb : String)
      (cid : Option String)
      (h : StateMachine.transition s st now email client_id T reason tb cid =
        .ok st') :
      Step s st st'
  | sweep_cooldowns (st st' : Store) (now n : Nat)
      (h : StateMachine.process_expired_cooldowns s st now = .ok (n, st')) :
      Step s st st'
  | sweep_stale (st st' : Store) (now : Nat) (months : Option Nat) (n : Nat)
      (h : StateMachine.process_stale_data s st now months = .ok (n, st')) :
      Step s st st'
  | fill (st st' : Store) (now : Nat) (req : CampaignFillRequest)
      (res : CampaignFillResult)
      (h : CampaignFillEngine.fill s st now req = .ok (st', res)) :
      Step s st st'

/-- Store states reachable from the empty store through the public
operations. -/
inductive Reachable (s : Settings) : Store → Prop where
  | empty : Reachable s emptyStore
  | step {st st' : Store} : Reachable s st → Step s st st' → Reachable s st'

/-- The same public operations, except that the state machine is never
invoked with target `IN_SEQUENCE` on a contact that is already
`IN_SEQUENCE` (the one call shape whose counter side effect
double-counts). -/
inductive StepNS (s : Settings) : Store → Store → Prop where
  | create (st : Store) (email client_id domain : String)
      (title : Option String) (enriched : Option Nat)
      (habs : lookupContact st.contacts email client_id = none) :
      StepNS s st (create_contact st
        (mkImportContact email client_id domain title enriched))
  | transition (st st' : Store) (now : Nat) (email client_id : String)
      (c : Contact) (T : DispositionStatus) (reason : Option String)
      (tb : String) (cid : Option String)
      (hc : lookupContact st.contacts email client_id = some c)
      (hns : ¬ (c.disposition_status = .in_sequence ∧ T = .in_sequence))
      (h : StateMachine.transition s st now email client_id T reason tb cid =
        .ok st') :
      StepNS s st st'
  | sweep_cooldowns (st st' : Store) (now n : Nat)
      (h : StateMachine.process_expired_cooldowns s st now = .ok (n, st')) :
      StepNS s st st'
  | sweep_stale (st st' : Store) (now : Nat) (months : Option Nat) (n : Nat)
      (h : StateMachine.process_stale_data s st now months = .ok (n, st')) :
      StepNS s st st'
  | fill (st st' : Store) (now : Nat) (req : CampaignFillRequest)
      (res : CampaignFillResult)
      (h : CampaignFillEngine.fill s st now req = .ok (st', res)) :
      StepNS s st st'

inductive ReachableNS (s : Settings) : Store → Prop where
  | empty : ReachableNS s emptyStore
  | step {st st' : Store} : ReachableNS s st → StepNS s st st' →
      ReachableNS s st'

theorem emptyStore_inv : Inv emptyStore := by
  refine ⟨List.Pairwise.nil, List.Pairwise.nil, ?_, ?_⟩
  · intro c h
    cases h
  · intro co h
    cases h

theorem StepNS_inv {s : Settings} {st st' : Store} (hInv : Inv st)
    (h : StepNS s st st') : Inv st' := by
  cases h with
  | create email client_id domain title enriched habs =>
    exact create_contact_inv hInv habs
      (fun hx => DispositionStatus.noConfusion hx)
  | transition st' now email client_id c T reason tb cid hc hns h =>
    obtain ⟨c2, hl2, _, rfl⟩ := StateMachine.transition_ok_elim h
    rw [hc] at hl2
    obtain rfl : c = c2 := by injection hl2
    exact transitionResult_inv hInv hc hns
  | sweep_cooldowns st' now n h => exact process_expired_cooldowns_inv hInv h
  | sweep_stale st' now months n h => exact process_stale_data_inv hInv h
  | fill st' now req res h => exact fill_ok_inv hInv h

theorem ReachableNS_inv {s : Settings} {st : Store}
    (h : ReachableNS s st) : Inv st := by
  induction h with
  | empty => exact emptyStore_inv
  | step _ hstep ih => exact StepNS_inv ih hstep

/-! ### Claim C1 -/

def C1_st1 : Store :=
  create_contact emptyStore (mkImportContact "a@x.com" "c1" "x.com" none none)

def C1_st2 : Store :=
  (StateMachine.transition defaultSettings C1_st1 5 "a@x.com" "c1"
    .in_sequence none "ui" none).toOption.getD emptyStore

def C1_st3 : Store :=
  (StateMachine.transition defaultSettings C1_st2 6 "a@x.com" "c1"
    .in_sequence none "ui" none).toOption.getD emptyStore

/-- C1, counterexample: the claim as stated is false.  From the empty
store, create a contact, move it to `IN_SEQUENCE`, then issue a
same-state `IN_SEQUENCE → IN_SEQUENCE` transition (a permitted public
operation).  The second call increments `contacts_in_sequence` again
(`_update_company_state` runs on the no-op), leaving the counter at 2
with a single in-sequence contact. -/
theorem C1_counterexample :
    Reachable defaultSettings C1_st3 ∧ ¬ CounterConsistent C1_st3 := by
  constructor
  · have s1 : Step defaultSettings emptyStore C1_st1 :=
      Step.create _ "a@x.com" "c1" "x.com" none none (by decide)
    have s2 : Step defaultSettings C1_st1 C1_st2 :=
      Step.transition _ _ 5 "a@x.com" "c1" .in_sequence none "ui" none
        (by decide)
    have s3 : Step defaultSettings C1_st2 C1_st3 :=
      Step.transition _ _ 6 "a@x.com" "c1" .in_sequence none "ui" none
        (by decide)
    exact Reachable.step (Reachable.step (Reachable.step Reachable.empty s1)
      s2) s3
  · decide

/-- C1 (amended): in every store state reachable from the empty store
through the public operations — contact creation, state-machine
transitions, maintenance sweeps and campaign fills — provided the state
machine is never invoked with target `IN_SEQUENCE` on a contact already
`IN_SEQUENCE`, every company's `contacts_in_sequence` counter equals the
number of contacts at that company's domain whose `disposition_status`
is `IN_SEQUENCE`. -/
theorem C1_counter_consistency (s : Settings) (st : Store)
    (h : ReachableNS s st) : CounterConsistent st :=
  (ReachableNS_inv h).2.2.2

/-- C1 witness: the amended theorem applied to a concrete two-step
reachable store. -/
theorem C1_witness : CounterConsistent C1_st2 :=
  C1_counter_consistency defaultSettings C1_st2
    (ReachableNS.step
      (ReachableNS.step ReachableNS.empty
        (StepNS.create _ "a@x.com" "c1" "x.com" none none (by decide)))
      (StepNS.transition _ _ 5 "a@x.com" "c1"
        (mkImportContact "a@x.com" "c1" "x.com" none none)
        .in_sequence none "ui" none (by decide) (by decide) (by decide)))

/-! ### Claim C2 -/

theorem transitionResult_history (s : Settings) (st : Store) (now : Nat)
    (e cl : String) (cur : DispositionStatus) (dom : String)
    (T : DispositionStatus) (reason : Option String) (tb : String)
    (cid : Option String) :
    (StateMachine.transitionResult s st now e cl cur dom T reason
      tb cid).history =
      ⟨e, cl, some cur, T, reason, tb, cid, now⟩ :: st.history := by
  unfold StateMachine.transitionResult
  dsimp only [StateMachine.update_company_state_eq, Store.update_contact_fields,
    Store.update_company_fields]
  split_ifs <;> rfl

def C2_store : Store :=
  create_contact emptyStore (mkImportContact "a@x.com" "c1" "x.com" none none)

/-- C2, counterexample: the claim as stated is false.  A same-state
transition (`FRESH → FRESH` on a freshly created contact) does not
raise, but it does append a `DispositionHistory` row: the run below
returns `.ok` with one history row where the claim demands none. -/
theorem C2_counterexample :
    (StateMachine.transition defaultSettings C2_store 5 "a@x.com" "c1"
      .fresh none "ui" none).toOption.map (fun st' => st'.history.length) =
      some 1 ∧
    C2_store.history.length = 0 := by
  decide

/-- C2 (amended): invoking `transition` with a target equal to the
contact's current `disposition_status` is permitted (it never raises for
an existing contact), but it is not history-free: it appends exactly one
`DispositionHistory` row whose `previous_status` equals its
`new_status`.  (`_validate_transition` allows the no-op, but
`transition` still runs the full effect pipeline afterwards.) -/
theorem C2_same_state_transition (s : Settings) (st : Store) (now : Nat)
    (e cl : String) (c : Contact) (reason : Option String) (tb : String)
    (cid : Option String)
    (hl : lookupContact st.contacts e cl = some c) :
    (match StateMachine.transition s st now e cl c.disposition_status reason
        tb cid with
     | .ok st' => st'.history =
        ⟨e, cl, some c.disposition_status, c.disposition_status, reason, tb,
         cid, now⟩ :: st.history
     | .error _ => False) := by
  have hv : StateMachine.validate_transition c.disposition_status
      c.disposition_status = none := by
    unfold StateMachine.validate_transition
    rw [if_pos rfl]
  rw [StateMachine.transition_eq_ok hl hv]
  exact transitionResult_history s st now e cl c.disposition_status
    c.company_domain c.disposition_status reason tb cid

/-- C2 witness: the amended theorem at a concrete store. -/
theorem C2_witness :
    (match StateMachine.transition defaultSettings C2_store 5 "a@x.com" "c1"
        DispositionStatus.fresh none "ui" none with
     | .ok st' => st'.history =
        ⟨"a@x.com", "c1", some .fresh, .fresh, none, "ui", none, 5⟩ ::
          C2_store.history
     | .error _ => False) :=
  C2_same_state_transition defaultSettings C2_store 5 "a@x.com" "c1"
    (mkImportContact "a@x.com" "c1" "x.com" none none) none "ui" none
    (by decide)

/-! ### Claim C3 -/

/-- C3: for an existing contact with current status `S` and a requested
target `T ≠ S`, `transition` raises `TransitionError` carrying `S`, `T`
and the allowed target set exactly when `T` is not in the transition map
of §4.2; when `T` is allowed it succeeds.  The embedding mirrors the
source's raise-before-write order: the error is returned before any
contact, history or company write, so the store is unchanged on
error. -/
theorem C3_illegal_transition_iff (s : Settings) (st : Store) (now : Nat)
    (e cl : String) (c : Contact) (T : DispositionStatus)
    (reason : Option String) (tb : String) (cid : Option String)
    (hl : lookupContact st.contacts e cl = some c)
    (hne : T ≠ c.disposition_status) :
    (StateMachine.transition s st now e cl T reason tb cid =
        .error (.illegal_transition
          ⟨c.disposition_status, T, TRANSITIONS c.disposition_status⟩) ↔
      T ∉ TRANSITIONS c.disposition_status) ∧
    (T ∈ TRANSITIONS c.disposition_status →
      StateMachine.transition s st now e cl T reason tb cid =
        .ok (StateMachine.transitionResult s st now e cl c.disposition_status
          c.company_domain T reason tb cid)) := by
  constructor
  · constructor
    · intro heq hmem
      have hv : StateMachine.validate_transition c.disposition_status T =
          none := StateMachine.validate_transition_eq_none.mpr (Or.inr hmem)
      rw [StateMachine.transition_eq_ok hl hv] at heq
      cases heq
    · intro hmem
      exact StateMachine.transition_eq_error_illegal hl
        (StateMachine.validate_transition_eq_some.mpr
          ⟨fun hx => hne hx.symm, hmem, rfl⟩)
  · intro hmem
    exact StateMachine.transition_eq_ok hl
      (StateMachine.validate_transition_eq_none.mpr (Or.inr hmem))

def C3_store : Store :=
  create_contact emptyStore (mkImportContact "b@y.com" "c1" "y.com" none none)

/-- C3 witness: a `FRESH` contact asked to move to `REPLIED_POSITIVE`
(not in the map) raises; the same contact asked to move to
`IN_SEQUENCE` (in the map) succeeds. -/
theorem C3_witness :
    ((StateMachine.transition defaultSettings C3_store 7 "b@y.com" "c1"
        .replied_positive none "ui" none =
          .error (.illegal_transition
            ⟨.fresh, .replied_positive, TRANSITIONS .fresh⟩) ↔
        DispositionStatus.replied_positive ∉ TRANSITIONS .fresh) ∧
      (DispositionStatus.replied_positive ∈ TRANSITIONS .fresh →
        StateMachine.transition defaultSettings C3_store 7 "b@y.com" "c1"
          .replied_positive none "ui" none =
          .ok (StateMachine.transitionResult defaultSettings C3_store 7
            "b@y.com" "c1" .fresh "y.com" .replied_positive none "ui"
            none))) :=
  C3_illegal_transition_iff defaultSettings C3_store 7 "b@y.com" "c1"
    (mkImportContact "b@y.com" "c1" "y.com" none none) .replied_positive
    none "ui" none (by decide) (by decide)

/-! ### Claim C4 -/

def C4_retouch : List Contact :=
  (List.range 10).map fun i =>
    { email := "r" ++ toString i ++ "@d" ++ toString i ++ ".com",
      client_id := "c1",
      company_domain := "d" ++ toString i ++ ".com",
      disposition_status := .retouch_eligible }

/-- C4, counterexample: the claim as stated is false.  With volume 10
and ratio 1/2 (so `F = 5`, `R = 5`), an empty fresh pool and ten
retouch candidates at distinct domains, the engine extends with
`retouch_sel[:volume − len(taken_fresh)] = retouch_sel[:10]` and
assigns 10 retouch contacts — more than `R = 5`. -/
theorem C4_counterexample :
    ¬ ((CampaignFillEngine.fillSelect 10 (1/2) 3 [] C4_retouch).countP
        (fun c => decide (c.disposition_status = .retouch_eligible)) ≤
      10 - CampaignFillEngine.fresh_target_of 10 (1/2)) := by
  have h5 : CampaignFillEngine.fresh_target_of 10 (1/2) = 5 := by
    unfold CampaignFillEngine.fresh_target_of
    norm_num
    decide
  have hsel : CampaignFillEngine.fillSelect 10 (1/2) 3 [] C4_retouch =
      C4_retouch := by
    simp only [CampaignFillEngine.fillSelect]
    rw [show (CampaignFillEngine.apply_company_cap [] 3 fun _ => 0) = []
      from rfl]
    simp only [List.take_nil, List.drop_nil, List.nil_append,
      List.append_nil, List.length_nil, Nat.sub_zero]
    decide
  rw [hsel, h5]
  decide

/-- C4 (amended): the engine sets `F = ⌊V·r⌋` and `R = V − F`, takes
the first `F` of the capped fresh list, then extends with retouch
contacts up to the volume still missing — `V − (fresh taken)`, not
`R` — and finally tops up from the remaining capped fresh.  Whenever
the capped fresh list supplies at least `F` contacts the retouch count
therefore never exceeds `R`; when fresh supply is short the retouch
portion may exceed `R` (see the counterexample). -/
theorem C4_retouch_budget (volume : Nat) (ratio : ℚ) (cap : Nat)
    (fresh_contacts retouch_contacts : List Contact)
    (hf : ∀ c ∈ fresh_contacts, c.disposition_status = .fresh)
    (hF : CampaignFillEngine.fresh_target_of volume ratio ≤
      (CampaignFillEngine.apply_company_cap fresh_contacts cap
        (fun _ => 0)).length) :
    (CampaignFillEngine.fillSelect volume ratio cap fresh_contacts
        retouch_contacts).countP
      (fun c => decide (c.disposition_status = .retouch_eligible)) ≤
      volume - CampaignFillEngine.fresh_target_of volume ratio :=
  CampaignFillEngine.fillSelect_retouch_le hf hF

def C4_wit_fresh : List Contact :=
  [{ email := "f1@a.com", client_id := "c1", company_domain := "a.com" },
   { email := "f2@b.com", client_id := "c1", company_domain := "b.com" }]

def C4_wit_retouch : List Contact :=
  [{ email := "r1@c.com", client_id := "c1", company_domain := "c.com",
     disposition_status := .retouch_eligible }]

/-- C4 witness: the amended bound at volume 2, ratio 1, cap 3. -/
theorem C4_witness :
    (∀ c ∈ C4_wit_fresh, c.disposition_status = .fresh) ∧
    CampaignFillEngine.fresh_target_of 2 1 ≤
      (CampaignFillEngine.apply_company_cap C4_wit_fresh 3
        (fun _ => 0)).length ∧
    (CampaignFillEngine.fillSelect 2 1 3 C4_wit_fresh
        C4_wit_retouch).countP
      (fun c => decide (c.disposition_status = .retouch_eligible)) ≤
      2 - CampaignFillEngine.fresh_target_of 2 1 := by
  have hF2 : CampaignFillEngine.fresh_target_of 2 1 = 2 := by
    unfold CampaignFillEngine.fresh_target_of
    norm_num
    decide
  refine ⟨by decide, ?_, ?_⟩
  · rw [hF2]
    decide
  · exact C4_retouch_budget 2 1 3 C4_wit_fresh C4_wit_retouch (by decide)
      (by rw [hF2]; decide)

/-! ### Claim C5 -/

/-- C5: whatever the store, the request and the eligible pools the
queries return, the contact list a successful `fill` returns contains at
most `max_per_company` (default 3, `0`/`None` falling back to the
settings default) contacts per company domain, fresh and retouch
selections counted together. -/
theorem C5_per_company_cap (s : Settings) (st : Store) (now : Nat)
    (req : CampaignFillRequest) (d : String) :
    (match CampaignFillEngine.fill s st now req with
     | .ok (_, res) => CampaignFillEngine.count_by_company res.contacts d ≤
        CampaignFillEngine.effective_max_per_company s req
     | .error _ => True) := by
  rcases hfill : CampaignFillEngine.fill s st now req with err | p
  · trivial
  · obtain ⟨st1, res⟩ := p
    dsimp only
    rw [fill_ok_contacts hfill]
    unfold fillSelection fillFreshQuery fillRetouchQuery
    exact CampaignFillEngine.fillSelect_company_cap _ _ _ _ _ d

/-! ### Claim C6 -/

theorem companyDerive_hard_no (old : DispositionStatus) (now : Nat)
    (co : Company) :
    (StateMachine.companyDerive old .replied_hard_no now
        co).company_suppressed = true ∧
    (StateMachine.companyDerive old .replied_hard_no now co).company_status =
      .suppressed := by
  simp only [StateMachine.companyDerive]
  split_ifs <;> exact ⟨rfl, rfl⟩

/-- C6: after any successful transition of a contact to
`REPLIED_HARD_NO`, the contact's company row (when present) has
`company_suppressed = true` and `company_status = SUPPRESSED`, and every
contact sharing that `company_domain` — across all clients — has
`email_suppressed = true`. -/
theorem C6_hard_no_cascade (s : Settings) (st st1 : Store) (now : Nat)
    (e cl : String) (c : Contact) (reason : Option String) (tb : String)
    (cid : Option String)
    (hl : lookupContact st.contacts e cl = some c)
    (h : StateMachine.transition s st now e cl .replied_hard_no reason tb
      cid = .ok st1) :
    ((lookupCompany st.companies c.company_domain).isSome = true →
      ∃ co, lookupCompany st1.companies c.company_domain = some co ∧
        co.company_suppressed = true ∧ co.company_status = .suppressed) ∧
    (∀ c2 ∈ st1.contacts, c2.company_domain = c.company_domain →
      c2.email_suppressed = true) := by
  obtain ⟨c2, hl2, hv, rfl⟩ := StateMachine.transition_ok_elim h
  rw [hl] at hl2
  obtain rfl : c = c2 := by injection hl2
  unfold StateMachine.transitionResult
  dsimp only [StateMachine.update_company_state_eq, Store.update_contact_fields,
    Store.update_company_fields]
  rw [if_pos rfl]
  constructor
  · intro hsome
    rcases ho : lookupCompany st.companies c.company_domain with _ | co0
    · rw [ho] at hsome
      cases hsome
    · refine ⟨StateMachine.companyDerive c.disposition_status
        .replied_hard_no now co0, ?_,
        (companyDerive_hard_no _ _ _).1, (companyDerive_hard_no _ _ _).2⟩
      show lookupCompany (updCompanies _ _ st.companies) _ = _
      rw [lookupCompany_updCompanies_self
        (fun x => StateMachine.companyDerive_domain _ _ _ x)]
      rw [ho]
      rfl
  · intro c2 hc2 hdom
    unfold StateMachine.suppress_company at hc2
    dsimp only at hc2
    obtain ⟨y, hy, rfl⟩ := List.mem_map.mp hc2
    have hyd : y.company_domain = c.company_domain := by
      rw [← (suppressRow_fields c.company_domain y).2.2.1]
      exact hdom
    show ((if y.company_domain = c.company_domain then
      { y with email_suppressed := true } else y) : Contact).email_suppressed =
        true
    rw [if_pos hyd]

def C6_store : Store :=
  { emptyStore with
    contacts :=
      [{ email := "a@x.com", client_id := "c1", company_domain := "x.com",
         disposition_status := .in_sequence },
       { email := "b@x.com", client_id := "c2", company_domain := "x.com" }],
    companies :=
      [{ domain := "x.com", contacts_total := 2, contacts_in_sequence := 1,
         contacts_touched := 1 }] }

def C6_result : Store :=
  (StateMachine.transition defaultSettings C6_store 9 "a@x.com" "c1"
    .replied_hard_no none "ui" none).toOption.getD emptyStore

/-- C6 witness: a hard no from `a@x.com` suppresses the `x.com` company
row and both contacts at the domain, including another client's
contact. -/
theorem C6_witness :
    ((lookupCompany C6_store.companies "x.com").isSome = true →
      ∃ co, lookupCompany C6_result.companies "x.com" = some co ∧
        co.company_suppressed = true ∧ co.company_status = .suppressed) ∧
    (∀ c2 ∈ C6_result.contacts, c2.company_domain = "x.com" →
      c2.email_suppressed = true) :=
  C6_hard_no_cascade defaultSettings C6_store C6_result 9 "a@x.com" "c1"
    { email := "a@x.com", client_id := "c1", company_domain := "x.com",
      disposition_status := .in_sequence } none "ui" none
    (by decide) (by decide)

/-! ### Claim C7 -/

/-- C7: the TAM health report sets `exhaustion_eta_weeks` to
`available_now / burn_rate_weekly` when the burn rate is positive and to
`None` otherwise, and classifies `health_status` as "critical" exactly
when the ETA is below `tam_critical_weeks`, "warning" exactly when it is
at least `tam_critical_weeks` but below `tam_warning_weeks`, and
"healthy" otherwise — in particular whenever the ETA is `None`. -/
theorem C7_tam_health (s : Settings) (st : Store) (now : Nat)
    (client : Option String) :
    ((TAMTracker.get_health s st now client).exhaustion_eta_weeks =
      if TAMTracker.get_burn_rate st now client > 0 then
        some (((TAMTracker.get_tam_pools st now client).available_now : ℚ) /
          (TAMTracker.get_burn_rate st now client : ℚ))
      else none) ∧
    ((TAMTracker.get_health s st now client).health_status = "critical" ↔
      ∃ q, (TAMTracker.get_health s st now client).exhaustion_eta_weeks =
        some q ∧ q < (s.tam_critical_weeks : ℚ)) ∧
    ((TAMTracker.get_health s st now client).health_status = "warning" ↔
      ∃ q, (TAMTracker.get_health s st now client).exhaustion_eta_weeks =
        some q ∧ (s.tam_critical_weeks : ℚ) ≤ q ∧
        q < (s.tam_warning_weeks : ℚ)) ∧
    ((TAMTracker.get_health s st now client).health_status = "healthy" ↔
      ((TAMTracker.get_health s st now client).exhaustion_eta_weeks = none ∨
        ∃ q, (TAMTracker.get_health s st now client).exhaustion_eta_weeks =
          some q ∧ (s.tam_critical_weeks : ℚ) ≤ q ∧
          (s.tam_warning_weeks : ℚ) ≤ q)) := by
  have h_eta : (TAMTracker.get_health s st now client).exhaustion_eta_weeks =
      if TAMTracker.get_burn_rate st now client > 0 then
        some (((TAMTracker.get_tam_pools st now client).available_now : ℚ) /
          (TAMTracker.get_burn_rate st now client : ℚ))
      else none := rfl
  have h_status : (TAMTracker.get_health s st now client).health_status =
      (match (if TAMTracker.get_burn_rate st now client > 0 then
          some (((TAMTracker.get_tam_pools st now client).available_now : ℚ) /
            (TAMTracker.get_burn_rate st now client : ℚ))
        else none : Option ℚ) with
       | none => "healthy"
       | some q =>
         if q < (s.tam_critical_weeks : ℚ) then "critical"
         else if q < (s.tam_warning_weeks : ℚ) then "warning"
         else "healthy") := rfl
  by_cases hb : TAMTracker.get_burn_rate st now client > 0
  · set q0 := ((TAMTracker.get_tam_pools st now client).available_now : ℚ) /
      (TAMTracker.get_burn_rate st now client : ℚ) with hq0
    have he : (TAMTracker.get_health s st now client).exhaustion_eta_weeks =
        some q0 := by
      rw [h_eta, if_pos hb]
    have hs : (TAMTracker.get_health s st now client).health_status =
        (if q0 < (s.tam_critical_weeks : ℚ) then "critical"
         else if q0 < (s.tam_warning_weeks : ℚ) then "warning"
         else "healthy") := by
      rw [h_status, if_pos hb]
    refine ⟨h_eta, ?_, ?_, ?_⟩
    · rw [hs, he]
      split_ifs with h1 h2
      · exact iff_of_true rfl ⟨q0, rfl, h1⟩
      · refine iff_of_false (by decide) ?_
        rintro ⟨q, hq, hlt⟩
        obtain rfl : q0 = q := by injection hq
        exact h1 hlt
      · refine iff_of_false (by decide) ?_
        rintro ⟨q, hq, hlt⟩
        obtain rfl : q0 = q := by injection hq
        exact h1 hlt
    · rw [hs, he]
      split_ifs with h1 h2
      · refine iff_of_false (by decide) ?_
        rintro ⟨q, hq, hge, -⟩
        obtain rfl : q0 = q := by injection hq
        exact absurd h1 (not_lt.mpr hge)
      · exact iff_of_true rfl ⟨q0, rfl, not_lt.mp h1, h2⟩
      · refine iff_of_false (by decide) ?_
        rintro ⟨q, hq, -, hlt⟩
        obtain rfl : q0 = q := by injection hq
        exact h2 hlt
    · rw [hs, he]
      split_ifs with h1 h2
      · refine iff_of_false (by decide) ?_
        rintro (hx | ⟨q, hq, hge, -⟩)
        · cases hx
        · obtain rfl : q0 = q := by injection hq
          exact absurd h1 (not_lt.mpr hge)
      · refine iff_of_false (by decide) ?_
        rintro (hx | ⟨q, hq, -, hge⟩)
        · cases hx
        · obtain rfl : q0 = q := by injection hq
          exact absurd h2 (not_lt.mpr hge)
      · exact iff_of_true rfl
          (Or.inr ⟨q0, rfl, not_lt.mp h1, not_lt.mp h2⟩)
  · have he : (TAMTracker.get_health s st now client).exhaustion_eta_weeks =
        none := by
      rw [h_eta, if_neg hb]
    have hs : (TAMTracker.get_health s st now client).health_status =
        "healthy" := by
      rw [h_status, if_neg hb]
    refine ⟨h_eta, ?_, ?_, ?_⟩
    · rw [hs, he]
      refine iff_of_false (by decide) ?_
      rintro ⟨q, hq, -⟩
      cases hq
    · rw [hs, he]
      refine iff_of_false (by decide) ?_
      rintro ⟨q, hq, -⟩
      cases hq
    · rw [hs, he]
      exact iff_of_true rfl (Or.inl rfl)

/-! ### Claim C8 -/

theorem cascade_warnings_mono (maxc : ℚ) :
    ∀ (ps : List Provider) (acc : WaterfallEngine.CascadeState),
      ∃ t, (WaterfallEngine.cascade maxc acc ps).warnings =
        acc.warnings ++ t := by
  intro ps
  induction ps with
  | nil =>
    intro acc
    exact ⟨[], (List.append_nil _).symm⟩
  | cons p rest ih =>
    intro acc
    simp only [WaterfallEngine.cascade]
    by_cases hd : acc.deficit ≤ 0
    · rw [if_pos hd]
      exact ⟨[], (List.append_nil _).symm⟩
    · rw [if_neg hd]
      by_cases hc : acc.total_credits ≥ maxc
      · rw [if_pos hc]
        exact ⟨["Credit limit reached"], rfl⟩
      · rw [if_neg hc]
        rcases hsearch : p.search_leads acc.deficit.toNat with e | r
        · obtain ⟨t, ht⟩ := ih { acc with warnings :=
            acc.warnings ++ [p.provider_name ++ " error: " ++ e] }
          refine ⟨[p.provider_name ++ " error: " ++ e] ++ t, ?_⟩
          rw [ht]
          exact (List.append_assoc _ _ _)
        · obtain ⟨t, ht⟩ := ih { acc with
            warnings := acc.warnings ++ r.errors,
            per_provider_counts :=
              acc.per_provider_counts ++ [(p.provider_name, r.leads.length)],
            credits_consumed :=
              acc.credits_consumed ++ [(p.provider_name, r.credits_consumed)],
            total_credits := acc.total_credits + r.credits_consumed,
            leads := acc.leads ++ r.leads,
            deficit := acc.deficit - r.leads.length }
          refine ⟨r.errors ++ t, ?_⟩
          rw [ht]
          exact (List.append_assoc _ _ _)

/-- C8: an exception raised by a provider's `search_leads` (modelled as
an `Except.error`) never propagates out of the waterfall's provider
cascade — the cascade is a total function.  When the erroring provider
is actually invoked (positive deficit, credit budget not exhausted),
the failure becomes a warning entry `"<name> error: <e>"` on the
returned result and the cascade continues with the remaining providers
from an otherwise unchanged running state. -/
theorem C8_provider_error_contained (maxc : ℚ)
    (acc : WaterfallEngine.CascadeState) (p : Provider)
    (rest : List Provider) (e : String)
    (hd : 0 < acc.deficit) (hc : acc.total_credits < maxc)
    (hs : p.search_leads acc.deficit.toNat = .error e) :
    WaterfallEngine.cascade maxc acc (p :: rest) =
      WaterfallEngine.cascade maxc
        { acc with warnings :=
            acc.warnings ++ [p.provider_name ++ " error: " ++ e] } rest ∧
    (p.provider_name ++ " error: " ++ e) ∈
      (WaterfallEngine.cascade maxc acc (p :: rest)).warnings := by
  have h1 : WaterfallEngine.cascade maxc acc (p :: rest) =
      WaterfallEngine.cascade maxc
        { acc with warnings :=
            acc.warnings ++ [p.provider_name ++ " error: " ++ e] } rest := by
    simp only [WaterfallEngine.cascade]
    rw [if_neg (not_le.mpr hd), if_neg (not_le.mpr hc), hs]
  refine ⟨h1, ?_⟩
  rw [h1]
  obtain ⟨t, ht⟩ := cascade_warnings_mono maxc rest
    { acc with warnings := acc.warnings ++ [p.provider_name ++ " error: " ++ e] }
  rw [ht]
  exact List.mem_append.mpr (Or.inl (List.mem_append.mpr
    (Or.inr (List.mem_singleton_self _))))

def C8_provider : Provider := ⟨"ai_ark", fun _ => .error "boom"⟩

def C8_acc : WaterfallEngine.CascadeState := ⟨10, 0, [], [], [], []⟩

/-- C8 witness: a single always-raising provider with a positive
deficit and untouched credit budget. -/
theorem C8_witness :
    WaterfallEngine.cascade 100 C8_acc [C8_provider] =
      WaterfallEngine.cascade 100
        { C8_acc with warnings :=
            C8_acc.warnings ++ [C8_provider.provider_name ++ " error: " ++
              "boom"] } [] ∧
    (C8_provider.provider_name ++ " error: " ++ "boom") ∈
      (WaterfallEngine.cascade 100 C8_acc [C8_provider]).warnings :=
  C8_provider_error_contained 100 C8_acc C8_provider [] "boom"
    (by decide) (by decide) (by decide)

/-! ### Claim C9 -/

/-- C9: the expired-cooldown sweep never takes its
`TransitionError`-swallowing branch.  Every contact the query selects
has a disposition in {`COMPLETED_NO_RESPONSE`, `REPLIED_NEUTRAL`,
`REPLIED_NEGATIVE`, `LOST_CLOSED`} (by the query's WHERE clause), from
each of which `RETOUCH_ELIGIBLE` is a legal target, so the sweep
returns `.ok` with exactly the number of contacts the query selected,
assuming the store's contact keys are unique (the schema's primary
key). -/
theorem C9_expired_cooldown_sweep (s : Settings) (st : Store) (now : Nat)
    (hC : ContactsOk st) :
    Except.map Prod.fst (StateMachine.process_expired_cooldowns s st now) =
      .ok (get_expired_cooldowns st now).length := by
  have hp : (get_expired_cooldowns st now).Pairwise keyNe :=
    List.Pairwise.filter _ hC
  have hmem : ∀ x ∈ get_expired_cooldowns st now,
      lookupContact st.contacts x.email x.client_id = some x :=
    fun x hx => lookupContact_of_mem hC (mem_get_expired_cooldowns hx).1
  have hstat : ∀ x ∈ get_expired_cooldowns st now,
      x.disposition_status ∈
        [DispositionStatus.completed_no_response, .replied_neutral,
         .replied_negative, .lost_closed] :=
    fun x hx => (mem_get_expired_cooldowns hx).2
  obtain ⟨st', hok⟩ := @sweepLoop_exact s now (some "cooldown_expired")
    (get_expired_cooldowns st now) st 0 hp hmem hstat
  rw [Nat.zero_add] at hok
  unfold StateMachine.process_expired_cooldowns
  rw [hok]
  rfl

def C9_store : Store :=
  { emptyStore with
    contacts :=
      [{ email := "a@x.com", client_id := "c1", company_domain := "x.com",
         disposition_status := .completed_no_response,
         email_cooldown_until := some 3 },
       { email := "b@y.com", client_id := "c1", company_domain := "y.com",
         disposition_status := .lost_closed,
         email_cooldown_until := some 4 }],
    companies :=
      [{ domain := "x.com", contacts_total := 1 },
       { domain := "y.com", contacts_total := 1 }] }

/-- C9 witness: two expired-cooldown contacts are both retouched. -/
theorem C9_witness :
    ContactsOk C9_store ∧
    Except.map Prod.fst
      (StateMachine.process_expired_cooldowns defaultSettings C9_store 10) =
      .ok (get_expired_cooldowns C9_store 10).length :=
  ⟨by unfold ContactsOk; decide,
   C9_expired_cooldown_sweep defaultSettings C9_store 10
     (by unfold ContactsOk; decide)⟩

/-! ### Claim C10 -/

/-- C10: calling `claim_ownership(domain, X)` on a company currently
owned by `X` succeeds: it returns `True`, resets `client_owned_at` to
`now` and `ownership_expires_at` to `now + ownership_duration_months·30`
days (renewing the window), and appends a further `OwnershipChange` row
with `change_reason = "first_claim"` and `previous_owner_id = X`. -/
theorem C10_claim_ownership_renew (s : Settings) (st : Store) (now : Nat)
    (domain X : String) (co : Company)
    (hco : lookupCompany st.companies domain = some co)
    (hown : co.client_owner_id = some X) :
    (Deconfliction.claim_ownership s st now domain X).1 = true ∧
    (lookupCompany
        (Deconfliction.claim_ownership s st now domain X).2.companies
        domain).map
      (fun co2 => (co2.client_owner_id, co2.client_owned_at,
        co2.ownership_expires_at)) =
      some (some X, some now, some (now + s.ownership_duration_months * 30)) ∧
    (Deconfliction.claim_ownership s st now domain X).2.ownership_log =
      ⟨domain, some X, some X, "first_claim", now⟩ :: st.ownership_log := by
  have hcond : ¬ (co.client_owner_id ≠ none ∧
      co.client_owner_id ≠ some X) := by
    rw [hown]
    intro hx
    exact hx.2 rfl
  unfold Deconfliction.claim_ownership
  rw [hco]
  dsimp only [Store.update_company_fields]
  rw [if_neg hcond]
  refine ⟨rfl, ?_, ?_⟩
  · show (lookupCompany (updCompanies domain _ st.companies) domain).map _ = _
    rw [lookupCompany_updCompanies_self
      (f := Deconfliction.set_ownership_fields X now
        (now + s.ownership_duration_months * 30)) (fun x => rfl), hco]
    rfl
  · show (⟨domain, co.client_owner_id, some X, "first_claim", now⟩ :
      OwnershipChange) :: st.ownership_log = _
    rw [hown]

def C10_store : Store :=
  { emptyStore with
    companies :=
      [{ domain := "z.com", client_owner_id := some "c7",
         client_owned_at := some 1, ownership_expires_at := some 361 }] }

/-- C10 witness: re-claiming `z.com` for its current owner `c7` at day
50 renews the window to day 50 + 360. -/
theorem C10_witness :
    (Deconfliction.claim_ownership defaultSettings C10_store 50 "z.com"
      "c7").1 = true ∧
    (lookupCompany
        (Deconfliction.claim_ownership defaultSettings C10_store 50 "z.com"
          "c7").2.companies "z.com").map
      (fun co2 => (co2.client_owner_id, co2.client_owned_at,
        co2.ownership_expires_at)) =
      some (some "c7", some 50, some (50 + 12 * 30)) ∧
    (Deconfliction.claim_ownership defaultSettings C10_store 50 "z.com"
      "c7").2.ownership_log =
      ⟨"z.com", some "c7", some "c7", "first_claim", 50⟩ ::
        C10_store.ownership_log :=
  C10_claim_ownership_renew defaultSettings C10_store 50 "z.com" "c7"
    { domain := "z.com", client_owner_id := some "c7",
      client_owned_at := some 1, ownership_expires_at := some 361 }
    (by decide) (by decide)

end LeadDisposition
